import Mathlib

/-!
# IngressKit — shallow embedding and verification

This file embeds the data-repair pipeline of the IngressKit repository
(`sdk/python/ingresskit/repair.py`, `sdk/python/ingresskit/units.py`,
`server/main.py`, `server/main_saas_backup.py`) in Lean 4 and settles the
frozen specification claims against it.

Modelling conventions:
* Python strings are Lean `String`s; all operations are implemented over
  `String.data : List Char`.  Character case functions model the ASCII
  fragment (all data relevant to the claims is ASCII).
* Python floats are modelled as a sign flag plus an exact non-negative
  rational magnitude (`PyFloat`).  `float(...)` parsing of a decimal
  string is exact in this model; `"%.2f"`/`"%.6f"` formatting rounds the
  exact rational (ties round half-up).  IEEE-754 double rounding,
  overflow to infinity, and signed zero produced by arithmetic are not
  modelled; no claim below depends on them.
* Stateful or effectful code (file I/O of the credit store) is embedded
  as explicit state passing with an explicit write log.
-/

namespace IngressKit

/-! ## Character and string primitives -/

/-- Whitespace in the sense of `str.strip` (ASCII fragment:
    space/tab/LF/CR; Python additionally strips `\x0b`, `\x0c`, the
    `\x1c`-`\x1f` separators and Unicode whitespace, all outside the
    modelled character fragment). -/
def isWs (c : Char) : Bool :=
  c = ' ' || c = '\t' || c = '\n' || c = '\r'

/-- ASCII lower-casing of one character (models `str.lower`). -/
def lowerChar (c : Char) : Char :=
  if 65 ≤ c.toNat ∧ c.toNat ≤ 90 then Char.ofNat (c.toNat + 32) else c

/-- ASCII upper-casing of one character (models `str.upper`). -/
def upperChar (c : Char) : Char :=
  if 97 ≤ c.toNat ∧ c.toNat ≤ 122 then Char.ofNat (c.toNat - 32) else c

/-- ASCII letter test (models the regex class `[A-Za-z]`). -/
def isAsciiAlpha (c : Char) : Bool :=
  (65 ≤ c.toNat ∧ c.toNat ≤ 90) || (97 ≤ c.toNat ∧ c.toNat ≤ 122)

/-- ASCII digit test (models the regex class `\d` / `[0-9]`). -/
def isDigitC (c : Char) : Bool :=
  48 ≤ c.toNat ∧ c.toNat ≤ 57

/-- Lower-case ASCII letter or digit (the class `[a-z0-9]`). -/
def isLowerAlnum (c : Char) : Bool :=
  (97 ≤ c.toNat ∧ c.toNat ≤ 122) || isDigitC c

/-- Drop leading and trailing whitespace from a character list. -/
def trimChars (l : List Char) : List Char :=
  ((l.dropWhile isWs).reverse.dropWhile isWs).reverse

/-- Models Python `str.strip()`. -/
def pyStrip (s : String) : String := ⟨trimChars s.data⟩

/-- Models Python `str.lower()` (ASCII fragment). -/
def pyLower (s : String) : String := ⟨s.data.map lowerChar⟩

/-- Models Python `str.upper()` (ASCII fragment). -/
def pyUpper (s : String) : String := ⟨s.data.map upperChar⟩

/-- Keep only the characters satisfying `p`
    (models `re.sub(<complement class>, "", s)`). -/
def keepChars (p : Char → Bool) (s : String) : String := ⟨s.data.filter p⟩

/-! ## Unit registry (`units.py`) -/

/-- `LENGTH_UNITS` from `units.py`: unit string → factor to metres. -/
def LENGTH_UNITS : List (String × ℚ) :=
  [("m", 1), ("meter", 1), ("meters", 1),
   ("km", 1000), ("kilometer", 1000), ("kilometers", 1000),
   ("ft", 3048/10000), ("feet", 3048/10000),
   ("inch", 254/10000), ("in", 254/10000)]

/-- `MASS_UNITS` from `units.py`: unit string → factor to kilograms. -/
def MASS_UNITS : List (String × ℚ) :=
  [("kg", 1), ("kilogram", 1), ("kilograms", 1),
   ("g", 1/1000), ("gram", 1/1000), ("grams", 1/1000),
   ("lb", 45359237/100000000), ("lbs", 45359237/100000000),
   ("pound", 45359237/100000000), ("pounds", 45359237/100000000)]

/-- Association-list lookup (models Python `dict[key]` / `key in dict`). -/
def lookupTab (tab : List (String × ℚ)) (k : String) : Option ℚ :=
  match tab with
  | [] => none
  | (k', v) :: rest => if k = k' then some v else lookupTab rest k

/-- `normalize_length` from `units.py`. -/
def normalize_length (value : ℚ) (unit : String) : Option ℚ × Option String :=
  let u := pyLower (pyStrip unit)
  match lookupTab LENGTH_UNITS u with
  | some f => (some (value * f), none)
  | none => (none, some ("unknown_length_unit:" ++ unit))

/-- `normalize_mass` from `units.py`. -/
def normalize_mass (value : ℚ) (unit : String) : Option ℚ × Option String :=
  let u := pyLower (pyStrip unit)
  match lookupTab MASS_UNITS u with
  | some f => (some (value * f), none)
  | none => (none, some ("unknown_mass_unit:" ++ unit))

/-! ## Schemas and header resolution (`repair.py`) -/

/-- `CANONICAL_SCHEMAS["contacts"]`. -/
def contactsSchema : List String :=
  ["email", "phone", "first_name", "last_name", "company"]

/-- `CANONICAL_SCHEMAS["transactions"]`. -/
def transactionsSchema : List String :=
  ["id", "amount", "currency", "occurred_at", "customer_id"]

/-- `CANONICAL_SCHEMAS["products"]`. -/
def productsSchema : List String :=
  ["sku", "name", "price", "currency", "category", "weight_kg", "length_m"]

/-- `HEADER_SYNONYMS` from `repair.py`, in dict insertion order. -/
def HEADER_SYNONYMS : List (String × List String) :=
  [("email", ["email", "e-mail", "mail", "email address"]),
   ("phone", ["phone", "phone number", "tel", "telephone"]),
   ("first_name", ["first", "first name", "fname", "given name"]),
   ("last_name", ["last", "last name", "lname", "surname", "family name"]),
   ("company", ["company", "organization", "org", "employer"]),
   ("id", ["id", "txn id", "transaction id"]),
   ("amount", ["amount", "total", "value", "amount_cents", "amount (usd)", "price"]),
   ("currency", ["currency", "curr", "iso currency"]),
   ("occurred_at", ["date", "occurred at", "timestamp", "created", "time"]),
   ("customer_id", ["customer id", "customer", "client id", "account id"]),
   ("sku", ["sku", "id", "product id", "code"]),
   ("name", ["name", "title", "product name"]),
   ("price", ["price", "amount", "cost"]),
   ("category", ["category", "type", "group"]),
   ("weight_kg", ["weight", "mass", "weight_kg"]),
   ("length_m", ["length", "size", "height", "width", "depth", "length_m"])]

/-- Split a character list into maximal runs satisfying `p`,
    discarding separators. -/
def splitRuns (p : Char → Bool) : List Char → List (List Char)
  | [] => []
  | c :: cs =>
    let rest := splitRuns p cs
    if p c then
      match rest, cs with
      | run :: runs, c' :: _ => if p c' then (c :: run) :: runs else [c] :: rest
      | _, _ => [c] :: rest
    else rest

/-- `_slugify` from `repair.py`: lower-case, collapse characters outside
    `[a-z0-9]` to separators, join the runs with `_`. -/
def slugify (s : String) : String :=
  ⟨List.intercalate ['_'] (splitRuns isLowerAlnum (trimChars (s.data.map lowerChar)))⟩

/-- Match the regex `^(.+?)\s*\(([^)]+)\)\s*$` against `s.strip()`,
    returning (base, unit).  The non-greedy `(.+?)` makes the base the
    shortest non-empty prefix such that, after optional spaces, a `(`
    opens a non-empty parenthesised group followed only by trailing
    whitespace. -/
def matchUnitHeader (s : String) : Option (String × String) :=
  let cs := trimChars s.data
  go cs [] cs.length
where
  /-- Try base = `acc.reverse ++ [c]` for each split point, shortest first. -/
  go : List Char → List Char → Nat → Option (String × String)
  | [], _, _ => none
  | _ :: _, _, 0 => none
  | c :: rest, acc, fuel + 1 =>
    match tryTail rest with
    | some unit => some (⟨(c :: acc).reverse⟩, unit)
    | none => go rest (c :: acc) fuel
  /-- After the base: `\s*\(([^)]+)\)\s*$`. -/
  tryTail (l : List Char) : Option String :=
    let l1 := l.dropWhile isWs
    match l1 with
    | '(' :: l2 =>
      let inner := l2.takeWhile (fun c => c ≠ ')')
      let l3 := l2.dropWhile (fun c => c ≠ ')')
      match l3 with
      | ')' :: l4 =>
        if inner.isEmpty then none
        else if l4.dropWhile isWs = [] then some ⟨inner⟩ else none
      | _ => none
    | _ => none

/-- `_extract_header_unit` from `repair.py`.  The source additionally
    `.strip()`s the captured group, and the row loop's `if unit:` then
    skips conversion for a whitespace-only parenthetical such as
    `"Weight (  )"`; that strip is not modelled: on such headers the
    embedding treats the whitespace as an unknown unit where the source
    skips the unit step, a divergence confined to whitespace-only
    parentheticals. -/
def extractHeaderUnit (header : String) : Option String :=
  (matchUnitHeader header).map Prod.snd

/-- `_guess_header` from `repair.py`: exact slug match, then synonym
    match (dict order), then unit-tagged retry of the synonym match. -/
def guessHeader (name : String) (schema : List String) : Option String :=
  let slug := slugify name
  if slug ∈ schema then some slug
  else
    match findSyn slug schema HEADER_SYNONYMS with
    | some c => some c
    | none =>
      match matchUnitHeader name with
      | some (base, _unit) => findSyn (slugify base) schema HEADER_SYNONYMS
      | none => none
where
  findSyn (slug : String) (schema : List String) :
      List (String × List String) → Option String
  | [] => none
  | (canonical, syns) :: rest =>
    if canonical ∈ schema ∧ slug ∈ syns.map slugify then some canonical
    else findSyn slug schema rest

/-! ## Numbers: Python `float(...)` and `"%.Nf"` formatting

A Python float is modelled as a sign flag plus an exact non-negative
rational magnitude; see the header comment for the modelling caveats. -/

/-- Model of a Python float parsed from a decimal string: sign flag
    (so that `float("-0")` keeps its sign for formatting) and an exact
    non-negative magnitude. -/
structure PyFloat where
  neg : Bool
  mag : ℚ
  deriving DecidableEq, Repr

/-- The signed rational value of a `PyFloat`. -/
def PyFloat.toQ (f : PyFloat) : ℚ := if f.neg then -f.mag else f.mag

/-- The digit character for `n < 10`. -/
def digitChar (n : ℕ) : Char := Char.ofNat (48 + n)

/-- Little-endian digit characters of `n`, with structural fuel so that
    the definition reduces in the kernel (`fuel ≥ n` suffices). -/
def natDigitsAux : ℕ → ℕ → List Char
  | 0, _ => []
  | fuel + 1, n => if n = 0 then [] else digitChar (n % 10) :: natDigitsAux fuel (n / 10)

/-- Decimal rendering of a natural number (models `str(n)` for the
    integer part of Python's fixed-point formatting). -/
def natStr (n : ℕ) : String :=
  if n = 0 then "0" else ⟨(natDigitsAux n n).reverse⟩

/-- Decimal rendering left-padded with zeros to width `w`. -/
def natStrPad (w : ℕ) (n : ℕ) : String :=
  ⟨List.replicate (w - (natStr n).length) '0'⟩ ++ natStr n

/-- Value of a big-endian list of digit characters. -/
def digitsToNat (l : List Char) : ℕ :=
  l.foldl (fun acc c => acc * 10 + (c.toNat - 48)) 0

/-- Model of Python `f"{x:.<prec>f}"`: round the magnitude to `prec`
    fractional digits (exact rational rounding, ties half-up — see the
    header comment) and print sign, integer part, `.`, padded fraction. -/
def formatFixed (prec : ℕ) (f : PyFloat) : String :=
  let n := (round ((10 : ℚ) ^ prec * f.mag)).toNat
  (if f.neg then "-" else "") ++ natStr (n / 10 ^ prec) ++ "." ++
    natStrPad prec (n % 10 ^ prec)

/-- `f"{x:.2f}"` as used by the `amount`/`price` coercer. -/
def formatTwo (f : PyFloat) : String := formatFixed 2 f

/-- The `PyFloat` of a signed rational (sign of an exact zero is lost;
    see the header comment). -/
def qToPyFloat (q : ℚ) : PyFloat := ⟨q < 0, |q|⟩

/-- Model of Python `float(s)` on strings over the alphabet `[0-9.\-]`
    (the only inputs the repair pipeline feeds it): an optional leading
    `-`, then digits with at most one `.` and at least one digit.
    Everything else raises `ValueError`, modelled as `none`. -/
def pyFloat (s : String) : Option PyFloat :=
  let p : Bool × List Char :=
    match s.data with
    | c :: rest => if c = '-' then (true, rest) else (false, c :: rest)
    | [] => (false, [])
  let ip := p.2.takeWhile isDigitC
  let rest := p.2.dropWhile isDigitC
  if rest = [] then (if ip.isEmpty then none else some ⟨p.1, digitsToNat ip⟩)
  else if rest.headD ' ' = '.' then
    let fp := rest.tail
    if fp.all isDigitC ∧ (ip ≠ [] ∨ fp ≠ []) then
      some ⟨p.1, (digitsToNat ip : ℚ) + (digitsToNat fp : ℚ) / (10 : ℚ) ^ fp.length⟩
    else none
  else none

/-- The character class `[0-9.\-]` stripped to by the decimal coercer. -/
def isNumC (c : Char) : Bool := isDigitC c || c = '.' || c = '-'

/-! ## Dates: `datetime.strptime` for the six fixed formats -/

/-- A Python `datetime.date`. -/
structure PyDate where
  year : ℕ
  month : ℕ
  day : ℕ
  deriving DecidableEq, Repr

/-- Gregorian leap year (as in Python's `calendar`/`datetime`). -/
def isLeap (y : ℕ) : Bool := (y % 4 = 0 ∧ y % 100 ≠ 0) ∨ y % 400 = 0

/-- Days in a month of a given year. -/
def daysInMonth (y m : ℕ) : ℕ :=
  if m = 2 then (if isLeap y then 29 else 28)
  else if m = 4 ∨ m = 6 ∨ m = 9 ∨ m = 11 then 30
  else 31

/-- The range check performed by the `datetime.date` constructor. -/
def PyDate.valid (d : PyDate) : Bool :=
  1 ≤ d.year && d.year ≤ 9999 && 1 ≤ d.month && d.month ≤ 12 &&
    1 ≤ d.day && d.day ≤ daysInMonth d.year d.month

/-- `date.isoformat()`: `YYYY-MM-DD` with zero padding. -/
def isoDate (d : PyDate) : String :=
  natStrPad 4 d.year ++ "-" ++ natStrPad 2 d.month ++ "-" ++ natStrPad 2 d.day

/-- Lower-cased month abbreviations recognised by `%b`. -/
def monthAbbrevs : List String :=
  ["jan", "feb", "mar", "apr", "may", "jun",
   "jul", "aug", "sep", "oct", "nov", "dec"]

/-- `%Y`: exactly four digits. -/
def parseY : List Char → Option (ℕ × List Char)
  | a :: b :: c :: d :: rest =>
    if isDigitC a ∧ isDigitC b ∧ isDigitC c ∧ isDigitC d then
      some (digitsToNat [a, b, c, d], rest)
    else none
  | _ => none

/-- `%m`: the regex `1[0-2]|0[1-9]|[1-9]` — two digits forming 01–12,
    else one digit 1–9. -/
def parseM : List Char → Option (ℕ × List Char)
  | a :: b :: rest =>
    if isDigitC a ∧ isDigitC b then
      let v := digitsToNat [a, b]
      if 1 ≤ v ∧ v ≤ 12 then some (v, rest)
      else if isDigitC a ∧ a ≠ '0' ∧ digitsToNat [a] ≤ 9 then
        some (digitsToNat [a], b :: rest)
      else none
    else if isDigitC a ∧ a ≠ '0' then some (digitsToNat [a], b :: rest)
    else none
  | [a] => if isDigitC a ∧ a ≠ '0' then some (digitsToNat [a], []) else none
  | [] => none

/-- `%d`: the regex `3[01]|[12]\d|0[1-9]|[1-9]` — two digits forming
    01–31, else one digit 1–9. -/
def parseD : List Char → Option (ℕ × List Char)
  | a :: b :: rest =>
    if isDigitC a ∧ isDigitC b then
      let v := digitsToNat [a, b]
      if 1 ≤ v ∧ v ≤ 31 then some (v, rest)
      else if a ≠ '0' ∧ digitsToNat [a] ≤ 9 then some (digitsToNat [a], b :: rest)
      else none
    else if isDigitC a ∧ a ≠ '0' then some (digitsToNat [a], b :: rest)
    else none
  | [a] => if isDigitC a ∧ a ≠ '0' then some (digitsToNat [a], []) else none
  | [] => none

/-- `%b`: a three-letter month abbreviation, case-insensitively. -/
def parseB : List Char → Option (ℕ × List Char)
  | a :: b :: c :: rest =>
    match (monthAbbrevs.indexOf? (⟨[lowerChar a, lowerChar b, lowerChar c]⟩ : String)) with
    | some i => some (i + 1, rest)
    | none => none
  | _ => none

/-- A literal character of the format. -/
def parseLit (c : Char) : List Char → Option (List Char)
  | x :: rest => if x = c then some rest else none
  | [] => none

/-- Whitespace in the format matches one or more whitespace characters. -/
def parseWs : List Char → Option (List Char)
  | x :: rest => if isWs x then some (rest.dropWhile isWs) else none
  | [] => none

/-- One `strptime` format token. -/
inductive DTok
  | Y | m2 | d2 | bMon | lit (c : Char) | ws
  deriving DecidableEq

/-- Run a token list against the input; `strptime` requires the whole
    string to be consumed and then validates the date ranges via the
    `datetime` constructor. -/
def runFmt (toks : List DTok) (cs : List Char) : Option PyDate :=
  go toks cs 1900 1 1
where
  go : List DTok → List Char → ℕ → ℕ → ℕ → Option PyDate
  | [], cs, y, m, d =>
    if cs = [] then
      let dt : PyDate := ⟨y, m, d⟩
      if dt.valid then some dt else none
    else none
  | .Y :: toks, cs, _, m, d =>
    (parseY cs).bind fun (y, rest) => go toks rest y m d
  | .m2 :: toks, cs, y, _, d =>
    (parseM cs).bind fun (m, rest) => go toks rest y m d
  | .d2 :: toks, cs, y, m, _ =>
    (parseD cs).bind fun (d, rest) => go toks rest y m d
  | .bMon :: toks, cs, y, _, d =>
    (parseB cs).bind fun (m, rest) => go toks rest y m d
  | .lit c :: toks, cs, y, m, d =>
    (parseLit c cs).bind fun rest => go toks rest y m d
  | .ws :: toks, cs, y, m, d =>
    (parseWs cs).bind fun rest => go toks rest y m d

/-- The six fixed formats tried by `_coerce_value` for `occurred_at`,
    in source order: `%Y-%m-%d`, `%m/%d/%Y`, `%Y/%m/%d`, `%d-%b-%Y`,
    `%d/%m/%Y`, `%b %d, %Y`. -/
def dateFormats : List (List DTok) :=
  [[.Y, .lit '-', .m2, .lit '-', .d2],
   [.m2, .lit '/', .d2, .lit '/', .Y],
   [.Y, .lit '/', .m2, .lit '/', .d2],
   [.d2, .lit '-', .bMon, .lit '-', .Y],
   [.d2, .lit '/', .m2, .lit '/', .Y],
   [.bMon, .ws, .d2, .lit ',', .ws, .Y]]

/-- Try the fixed formats in order; first success wins (the `for fmt`
    loop of `_coerce_value`). -/
def tryFormats (v : String) : Option PyDate :=
  (dateFormats.map (fun f => runFmt f v.data)).foldr (fun r acc => r.orElse fun _ => acc) none

/-- A well-behaved general date parser (models `dateutil.parser.parse
    (...).date()`, whose results always satisfy the `datetime` range
    invariants). -/
def GoodParser (g : String → Option PyDate) : Prop :=
  ∀ s d, g s = some d → d.valid = true

/-! ## The value coercer (`_coerce_value`) -/

/-- `_coerce_value` from `repair.py`, parameterised by the general date
    parser `g` (the external `dateutil` library).  Returns
    (canonical value or `None`, error detail or `None`). -/
def coerceValue (g : String → Option PyDate) (field : String) (value : Option String) :
    Option String × Option String :=
  match value with
  | none => (none, none)
  | some value =>
    let v := pyStrip value
    if v = "" then (none, none)
    else if field = "email" then (some (pyLower v), none)
    else if field = "phone" then (some (keepChars isDigitC v), none)
    else if field = "amount" ∨ field = "price" then
      match pyFloat (keepChars isNumC v) with
      | some f => (some (formatTwo f), none)
      | none => (none, some "coerce_error:ValueError")
    else if field = "occurred_at" then
      match tryFormats v with
      | some d => (some (isoDate d), none)
      | none =>
        match g v with
        | some d => (some (isoDate d), none)
        | none => (none, some ("unrecognized_date:" ++ v))
    else if field = "currency" then
      let cur := pyUpper (keepChars isAsciiAlpha v)
      if cur ∈ ["USD", "EUR", "GBP", "JPY", "CAD", "AUD", "INR"] then (some cur, none)
      else if 2 ≤ cur.length ∧ cur.length ≤ 4 then (some cur, none)
      else (none, some ("bad_currency:" ++ v))
    else if field = "id" ∨ field = "customer_id" ∨ field = "sku" then (some v, none)
    else if field = "name" ∨ field = "category" then (some (pyStrip v), none)
    else (some v, none)

/-! ## The repair engine (`Repairer.repair_file`)

The engine is modelled at the parsed-table level: the CSV reader/writer
round-trip (standard quoting) is the identity on cell values, so a file
is a `List (List String)` whose first row is the header. -/

/-- Python-dict lookup in an association list (first match). -/
def dget {α : Type} (l : List (String × α)) (k : String) : Option α :=
  match l with
  | [] => none
  | (k', v) :: rest => if k = k' then some v else dget rest k

/-- Python-dict assignment: update the first occurrence, else append. -/
def dset {α : Type} (l : List (String × α)) (k : String) (v : α) :
    List (String × α) :=
  match l with
  | [] => [(k, v)]
  | (k', v') :: rest => if k = k' then (k, v) :: rest else (k', v') :: dset rest k v

/-- An output record: canonical field → canonical value or absent. -/
abbrev OutRow := List (String × Option String)

/-- `header_map.get(i)`: the canonical field for column `i`, if any. -/
def headerMap (schema rawHeaders : List String) (i : ℕ) : Option String :=
  (rawHeaders.get? i).bind fun h => guessHeader h schema

/-- The unit-aware post-step of the row loop: if the raw header carried
    a parenthesised unit and a numeric portion can be extracted from the
    value, overwrite the field with the converted canonical rendering
    (or `None` for an unknown unit). -/
def unitAdjust (target rawHeader val : String) (out after : OutRow) :
    OutRow × OutRow :=
  match extractHeaderUnit rawHeader with
  | none => (out, after)
  | some u =>
    match pyFloat (keepChars isNumC val) with
    | none => (out, after)
    | some f =>
      let conv := if target = "weight_kg" then (normalize_mass f.toQ u).1
                  else (normalize_length f.toQ u).1
      let newVal := conv.map fun q => formatFixed 6 (qToPyFloat q)
      (dset out target newVal, dset after target newVal)

/-- The per-row loop of `repair_file`: walk the row's cells, coerce each
    mapped cell into the output record, and apply the unit-aware step
    for `weight_kg`/`length_m`.  Returns (out, before, after). -/
def processRow (g : String → Option PyDate) (schema rawHeaders : List String)
    (row : List String) : OutRow × List (String × String) × OutRow :=
  go 0 row (schema.map fun k => (k, (none : Option String))) [] []
where
  go : ℕ → List String → OutRow → List (String × String) → OutRow →
      OutRow × List (String × String) × OutRow
  | _, [], out, bf, af => (out, bf, af)
  | i, val :: rest, out, bf, af =>
    match headerMap schema rawHeaders i with
    | none => go (i + 1) rest out bf af
    | some target =>
      let bf' := dset bf target val
      let coerced := (coerceValue g target (some val)).1
      let out' := dset out target coerced
      let af' := dset af target coerced
      if target = "weight_kg" ∨ target = "length_m" then
        let p := unitAdjust target (rawHeaders.getD i "") val out' af'
        go (i + 1) rest p.1 bf' p.2
      else go (i + 1) rest out' bf' af'

/-- The summary dict assembled by `repair_file`. -/
structure RepairSummary where
  schema : List String
  rows_in : ℕ
  rows_out : ℕ
  mappedHeaders : List (ℕ × Option String)
  deriving DecidableEq, Repr

/-- The `RepairResult` dataclass. -/
structure RepairResult where
  rows_out : List OutRow
  summary : RepairSummary
  sample_diffs : List (List (String × String) × OutRow)
  deriving DecidableEq, Repr

/-- `Repairer.repair_file`, on the parsed table (header row first). -/
def repairRows (g : String → Option PyDate) (schema : List String)
    (table : List (List String)) : RepairResult :=
  match table with
  | [] => ⟨[], ⟨schema, 0, 0, []⟩, []⟩
  | rawHeaders :: dataRows =>
    let outs := dataRows.map fun r => processRow g schema rawHeaders r
    ⟨outs.map fun p => p.1,
     ⟨schema, dataRows.length, dataRows.length,
      (List.range rawHeaders.length).map fun i => (i, headerMap schema rawHeaders i)⟩,
     (outs.take 5).map fun p => (p.2.1, p.2.2)⟩

/-- Render an absent value as the empty string (`"" if v is None`). -/
def rendOpt : Option String → String
  | some v => v
  | none => ""

/-- Render one output-record cell looked up from the record (a missing
    key renders like an absent value). -/
def rendCell (o : Option (Option String)) : String :=
  rendOpt (o.getD none)

/-- `RepairResult.save`: one CSV row per record, schema field order,
    absent rendered as the empty string. -/
def renderRow (schema : List String) (out : OutRow) : List String :=
  schema.map fun k => rendCell (dget out k)

/-- The file written by `RepairResult.save`, as a parsed table:
    header row (the schema) followed by the rendered records. -/
def renderTable (schema : List String) (res : RepairResult) : List (List String) :=
  schema :: res.rows_out.map (renderRow schema)

/-- A trace entry as described by the spec's data model: an operation
    name, the input column index it concerns, and an optional detail. -/
structure TraceEntry where
  op : String
  key : ℕ
  detail : Option String
  deriving DecidableEq, Repr

/-- Translated from `Repairer.repair_file` (repair.py lines 160–220):
    the tabular engine appends to no trace structure anywhere — the
    coercion errors are discarded at line 191 (`# errors could be
    collected if desired`) and no `map_header`/`unmapped`/`coerce_error`
    entries are created, so the trace the engine emits is empty. -/
def repairEmittedTrace (_schema : List String) (_table : List (List String)) :
    List TraceEntry := []

/-- The claim's coverage property, stated from the spec's words: every
    input column index has exactly one `map_header`-or-`unmapped` entry
    in the trace. -/
def traceCoversKeys (headers : List String) (tr : List TraceEntry) : Prop :=
  ∀ i < headers.length,
    tr.countP (fun e => e.key == i && (e.op == "map_header" || e.op == "unmapped")) = 1

/-! ## JSON values and the webhook / object adapters (`server/main.py`) -/

/-- A JSON value (the fragment exercised by the webhook payloads:
    strings, integers, objects, null). -/
inductive Json
  | str (s : String)
  | int (n : ℤ)
  | obj (fields : List (String × Json))
  | null

/-- `payload.get(k)` on an object; `none` on any other shape. -/
def Json.get : Json → String → Option Json
  | .obj fields, k => dget fields k
  | _, _ => none

/-- `payload.get(k, default)`. -/
def Json.getD (j : Json) (k : String) (dflt : Json) : Json :=
  (j.get k).getD dflt

/-- Python `str(...)` on the JSON fragment (object rendering is never
    reached under the claims' hypotheses and is not modelled). -/
def pyStr : Json → String
  | .str s => s
  | .int n => if n < 0 then "-" ++ natStr n.natAbs else natStr n.natAbs
  | .null => "None"
  | .obj _ => ""

/-! ### Unix timestamps → RFC 3339 UTC (`datetime.fromtimestamp(..., tz=utc).isoformat()`) -/

/-- Civil date from days since 1970-01-01 (proleptic Gregorian),
    Howard Hinnant's `civil_from_days` algorithm on `ℤ`. -/
def civilFromDays (z : ℤ) : ℤ × ℕ × ℕ :=
  let z' := z + 719468
  let era := (if 0 ≤ z' then z' else z' - 146096).tdiv 146097
  let doe := (z' - era * 146097).toNat
  let yoe := (doe - doe / 1460 + doe / 36524 - doe / 146096) / 365
  let y := (yoe : ℤ) + era * 400
  let doy := doe - (365 * yoe + yoe / 4 - yoe / 100)
  let mp := (5 * doy + 2) / 153
  let d := doy - (153 * mp + 2) / 5 + 1
  let m := if mp < 10 then mp + 3 else mp - 9
  (if mp < 10 then y else y + 1, m, d)

/-- RFC 3339 UTC rendering of a Unix timestamp in whole seconds:
    `YYYY-MM-DDTHH:MM:SS+00:00` (no microseconds for integral input). -/
def unixToIso (ts : ℤ) : String :=
  let days := ts.fdiv 86400
  let secs := (ts.fmod 86400).toNat
  let c := civilFromDays days
  natStrPad 4 c.1.toNat ++ "-" ++ natStrPad 2 c.2.1 ++ "-" ++ natStrPad 2 c.2.2 ++
    "T" ++ natStrPad 2 (secs / 3600) ++ ":" ++ natStrPad 2 (secs % 3600 / 60) ++
    ":" ++ natStrPad 2 (secs % 60) ++ "+00:00"

/-- `_utc_ts` from `server/main.py`, with the current-time fallback made
    explicit as the `now` argument.  `datetime.fromtimestamp(float(ts),
    tz=timezone.utc)` succeeds exactly when the instant falls in years
    1..9999, i.e. `-62135596800 ≤ ts < 253402300800`; outside that range
    it raises and the `except` clause returns `datetime.now(...)`, as the
    function also does for an absent `created`.  Numeric strings for
    `created` are outside the modelled fragment. -/
def utcTs (now : String) : Option Json → String
  | some (.int n) =>
    if -62135596800 ≤ n ∧ n < 253402300800 then unixToIso n else now
  | _ => now

/-- The `CanonicalEvent` model of `server/main.py`. -/
structure CanonicalEvent where
  event_id : String
  source : String
  occurred_at : String
  actor : Option (List (String × Json))
  subject : Option (List (String × Json))
  action : String
  metadata : Option (List (String × Json))
  trace : List (List (String × Json))

/-- `normalize_stripe` from `server/main.py` (identical in
    `main_saas_backup.py`), with the wall clock passed as `now`. -/
def normalize_stripe (now : String) (payload : Json) : CanonicalEvent :=
  let obj := (payload.getD "data" (.obj [])).getD "object" (.obj [])
  let objFields := match obj with | .obj fs => fs | _ => []
  { event_id := pyStr ((payload.get "id").getD .null)
    source := "stripe"
    occurred_at := utcTs now (payload.get "created")
    actor := some [("id", (obj.get "customer").getD .null)]
    subject := some [("type", obj.getD "object" (.str "unknown")),
                     ("id", (obj.get "id").getD .null)]
    action := pyStr (payload.getD "type" (.str "unknown"))
    metadata := some (objFields.filter fun kv =>
      ¬(kv.1 = "id" ∨ kv.1 = "object" ∨ kv.1 = "customer"))
    trace := [[("op", .str "map"), ("field", .str "amount"),
               ("from", .str "amount"), ("to", .str "amount")]] }

/-! ### The contacts JSON normalizer (`json_normalize` in `server/main.py`) -/

/-- The contact record returned by the `contacts` branch of
    `json_normalize`. -/
structure ContactOut where
  email : Option String
  phone : Option String
  first_name : Option String
  last_name : Option String
  company : Option String
  traceOps : List String
  deriving DecidableEq, Repr

/-- Python truthiness-based `a.get(k) or a.get(k') or ""` over string
    values: the first present, non-empty value. -/
def getOr (data : List (String × String)) (keys : List String) : String :=
  match keys with
  | [] => ""
  | k :: rest =>
    match dget data k with
    | some v => if v = "" then getOr data rest else v
    | none => getOr data rest

/-- `re_digits` from `server/main.py`. -/
def re_digits (v : String) : Option String :=
  if v = "" then none
  else
    let d := keepChars isDigitC v
    if d = "" then none else some d

/-- Split at the first occurrence of `c`:
    models `s.split(c, 1)` when `c` occurs in `s`. -/
def splitOnce (c : Char) (s : String) : String × String :=
  (⟨s.data.takeWhile (fun x => x ≠ c)⟩,
   ⟨(s.data.dropWhile (fun x => x ≠ c)).drop 1⟩)

/-- The `contacts` branch of `json_normalize` in `server/main.py`
    (string-valued fields; non-string field values raise upstream and
    are outside the modelled fragment). -/
def json_normalize_contacts (data : List (String × String)) : ContactOut :=
  let email := pyLower (pyStrip (getOr data ["email", "Email"]))
  let phone := pyStrip (getOr data ["phone", "Phone"])
  let name := pyStrip (getOr data ["name", "Name"])
  let p : String × String :=
    if name.data.contains ',' then
      let q := splitOnce ',' name
      (pyStrip q.2, pyStrip q.1)
    else if name.data.contains ' ' then splitOnce ' ' name
    else ("", "")
  { email := if email = "" then none else some email
    phone := re_digits phone
    first_name := if p.1 = "" then none else some p.1
    last_name := if p.2 = "" then none else some p.2
    company := none
    traceOps := ["lower", "digits", "split_name"] }

/-- `normalize_contact_json` from `server/main_oss.py` (same split
    logic, wider synonym sets, an explicit single-token branch setting
    `first_name`, and op names `normalize_contact` / `email_lowercase`
    / `phone_digits_only` / `parse_name`). -/
def normalize_contact_json (data : List (String × String)) : ContactOut :=
  let email := pyLower (pyStrip (getOr data ["email", "Email", "e-mail", "mail"]))
  let phoneRaw := pyStrip (getOr data ["phone", "Phone", "telephone", "tel"])
  let phone : Option String :=
    if phoneRaw = "" then none else some (keepChars isDigitC phoneRaw)
  let name := pyStrip (getOr data ["name", "Name", "full_name"])
  let p : String × String :=
    if name.data.contains ',' then
      let q := splitOnce ',' name
      (pyStrip q.2, pyStrip q.1)
    else if name.data.contains ' ' then splitOnce ' ' name
    else (name, "")
  let company := getOr data ["company", "Company", "organization", "org"]
  { email := if email = "" then none else some email
    phone := match phone with
             | some d => if d = "" then none else some d
             | none => none
    first_name := if p.1 = "" then none else some p.1
    last_name := if p.2 = "" then none else some p.2
    company := if company = "" then none else some company
    traceOps := ["normalize_contact"] ++
      (if email ≠ "" then ["email_lowercase"] else []) ++
      (match phone with
       | some d => if d ≠ "" then ["phone_digits_only"] else []
       | none => []) ++
      (if name ≠ "" then ["parse_name"] else []) }

/-- The claim's name-splitting rule, stated from the spec's words
    ("presence of comma → Last, First; otherwise split on first
    *whitespace* → First Last; single token → first_name only"),
    for comparison with the source functions. -/
def specNameSplit (name : String) : Option String × Option String :=
  if name.data.contains ',' then
    let q := splitOnce ',' name
    (some (pyStrip q.2), some (pyStrip q.1))
  else if name.data.any isWs then
    let first := ⟨name.data.takeWhile (fun c => ¬ isWs c)⟩
    let last : String := ⟨(name.data.dropWhile (fun c => ¬ isWs c)).drop 1⟩
    (some first, some last)
  else (some name, none)

/-! ## The credit store (`server/main_saas_backup.py`) -/

/-- The persisted balance map of `KeyStore` (the parsed
    `balances.json`). -/
abbrev Balances := List (String × ℤ)

/-- `KeyStore.get_balance`: missing keys read as 0. -/
def getBalance (st : Balances) (k : String) : ℤ := (dget st k).getD 0

/-- `KeyStore.set_balance`. -/
def setBalance (st : Balances) (k : String) (v : ℤ) : Balances := dset st k v

/-- `KeyStore.charge`, embedded with an explicit write log: the result
    is either HTTP error 402 (with the list of `_write` calls performed,
    which is empty — the raise happens before any write) or the new
    balance together with the single persisting write. -/
def charge (st : Balances) (k : String) (delta : ℤ) :
    Except ℕ ℤ × List Balances :=
  let bal := getBalance st k
  if bal ≤ 0 then (.error 402, [])
  else (.ok (bal - delta), [setBalance st k (bal - delta)])

/-- The trivial general date parser, used to instantiate theorems at
    concrete inputs where the `dateutil` fallback is never consulted or
    fails. -/
def noParse : String → Option PyDate := fun _ => none

/-- The value of the last row cell (scanning cells `i, i+1, …`) whose
    column resolves to the canonical field `f`, if any. -/
def lastMappedFrom (schema rawHeaders : List String) :
    ℕ → List String → String → Option String
  | _, [], _ => none
  | i, v :: rest, f =>
    match lastMappedFrom schema rawHeaders (i + 1) rest f with
    | some w => some w
    | none => if headerMap schema rawHeaders i = some f then some v else none

/-- `s or None`: Python truthiness rendering of a string field. -/
def optOfStr (s : String) : Option String := if s = "" then none else some s

/-- The S4 payment-processor payload from the spec's test scenarios. -/
def stripeS4 : Json :=
  .obj [("id", .str "evt_1"), ("type", .str "charge.succeeded"),
        ("created", .int 1700000000),
        ("data", .obj [("object",
          .obj [("id", .str "ch_1"), ("object", .str "charge"),
                ("customer", .str "cus_1"), ("amount", .int 1299)])])]

/-! ### Predicates for the idempotence proof -/

/-- The values a field of a first-run output record can hold: either a
    successful coercion of some input cell, or — for the unit-converted
    fields only — a six-digit fixed-point rendering produced by
    `unitAdjust`. -/
def Image (g : String → Option PyDate) (k : String) (c : String) : Prop :=
  (∃ v, (coerceValue g k (some v)).1 = some c) ∨
    ((k = "weight_kg" ∨ k = "length_m") ∧ ∃ q : ℚ, c = formatFixed 6 (qToPyFloat q))

/-- A rendered cell re-coerces to itself: coercing it again and
    rendering the result gives the cell back. -/
def Refix (g : String → Option PyDate) (k : String) (c : String) : Prop :=
  rendOpt (coerceValue g k (some c)).1 = c

/-- The invariant satisfied by every cell of a first-run output record:
    present values lie in the coercion image of their field. -/
def CellInv (g : String → Option PyDate) (k : String) :
    Option (Option String) → Prop
  | some (some c) => Image g k c
  | _ => True

/-- A field for which every image value re-coerces to itself. -/
def FieldGood (k : String) : Prop :=
  ∀ (g : String → Option PyDate), GoodParser g →
    ∀ c, Image g k c → Refix g k c

/-! ## Dictionary lemmas -/

theorem dget_dset_self {α : Type} (l : List (String × α)) (k : String) (v : α) :
    dget (dset l k v) k = some v := by
  induction l with
  | nil => simp [dget, dset]
  | cons p rest ih =>
    by_cases h : k = p.1
    · simp [dget, dset, h]
    · simp only [dset, dget]
      rw [if_neg h, dget, if_neg h]
      exact ih

theorem dget_dset_ne {α : Type} (l : List (String × α)) (k k' : String) (v : α)
    (h : k' ≠ k) : dget (dset l k v) k' = dget l k' := by
  induction l with
  | nil => simp [dget, dset, h]
  | cons p rest ih =>
    by_cases hk : k = p.1
    · subst hk
      simp only [dset, if_pos rfl, dget, if_neg h]
    · simp only [dset, if_neg hk, dget]
      by_cases hk' : k' = p.1
      · rw [if_pos hk', if_pos hk']
      · rw [if_neg hk', if_neg hk']
        exact ih

/-! ## C6 — the unit registry -/

/-- C6: for every value and unit string, `normalize_mass` multiplies by
    the table factor of the trimmed, lower-cased unit when present in
    the closed mass table (with `lb ↦ 0.45359237`), and returns `null`
    plus `unknown_mass_unit:<u>` otherwise; `normalize_length` behaves
    analogously with the length table and `unknown_length_unit:<u>`. -/
theorem unit_registry_spec :
    (∀ (v : ℚ) (u : String),
      (∀ f, lookupTab MASS_UNITS (pyLower (pyStrip u)) = some f →
        normalize_mass v u = (some (v * f), none)) ∧
      (lookupTab MASS_UNITS (pyLower (pyStrip u)) = none →
        normalize_mass v u = (none, some ("unknown_mass_unit:" ++ u))) ∧
      (∀ f, lookupTab LENGTH_UNITS (pyLower (pyStrip u)) = some f →
        normalize_length v u = (some (v * f), none)) ∧
      (lookupTab LENGTH_UNITS (pyLower (pyStrip u)) = none →
        normalize_length v u = (none, some ("unknown_length_unit:" ++ u)))) ∧
    lookupTab MASS_UNITS "lb" = some (45359237 / 100000000) := by
  refine ⟨fun v u => ⟨fun f hf => ?_, fun hn => ?_, fun f hf => ?_, fun hn => ?_⟩,
    by simp [lookupTab]⟩
  · simp [normalize_mass, hf]
  · simp [normalize_mass, hn]
  · simp [normalize_length, hf]
  · simp [normalize_length, hn]

/-- Witness for C6 at concrete inputs: `2 " LB "` converts via the `lb`
    factor; `"stone"` is unknown. -/
theorem unit_registry_spec_witness :
    normalize_mass 2 " LB " = (some (2 * (45359237 / 100000000)), none) ∧
    normalize_length 1 "stone" = (none, some "unknown_length_unit:stone") :=
  ⟨(unit_registry_spec.1 2 " LB ").1 _
    (by rw [show pyLower (pyStrip " LB ") = "lb" from by decide]; simp [lookupTab]),
   (unit_registry_spec.1 1 "stone").2.2.2 (by decide)⟩

/-! ## C5 — decimal coercion (corrected) -/

/-- C5 counterexample: a failed decimal parse reports
    `coerce_error:ValueError` (the exception class name caught by the
    blanket handler), not `bad_decimal:abc` as the claim states. -/
theorem decimal_error_detail_counterexample :
    coerceValue noParse "amount" (some "abc") =
      (none, some "coerce_error:ValueError") ∧
    some "coerce_error:ValueError" ≠ some ("bad_decimal:" ++ "abc") := by
  exact ⟨rfl, by decide⟩

/-- C5 (amended): for every non-empty value of an `amount`/`price`
    field the coercer strips characters outside `[0-9.\-]`, parses the
    remainder as a float and renders it with two fractional digits;
    when the parse fails the field is absent and the error detail is
    `coerce_error:ValueError` (not `bad_decimal:<raw>`). -/
theorem decimal_coercion_amended (g : String → Option PyDate) (field v : String)
    (hfield : field = "amount" ∨ field = "price") (hv : pyStrip v ≠ "") :
    coerceValue g field (some v) =
      match pyFloat (keepChars isNumC (pyStrip v)) with
      | some f => (some (formatTwo f), none)
      | none => (none, some "coerce_error:ValueError") := by
  rcases hfield with h | h <;> subst h <;> simp [coerceValue, hv]

/-- Evaluate `formatFixed` once the scaled magnitude is known to be a
    whole number (so the rounding is exact). -/
theorem formatFixed_eval (prec : ℕ) (neg : Bool) (mag : ℚ) (n : ℕ)
    (h : (10 : ℚ) ^ prec * mag = (n : ℚ)) :
    formatFixed prec ⟨neg, mag⟩ =
      (if neg then "-" else "") ++ natStr (n / 10 ^ prec) ++ "." ++
        natStrPad prec (n % 10 ^ prec) := by
  unfold formatFixed
  simp only [h, round_natCast, Int.toNat_natCast]

/-- Witness for C5 at concrete inputs: `" $1,234.50 "` renders as
    `1234.50`; `"1.2.3"` fails with `coerce_error:ValueError`. -/
theorem decimal_coercion_amended_witness :
    coerceValue noParse "amount" (some " $1,234.50 ") = (some "1234.50", none) ∧
    coerceValue noParse "price" (some "1.2.3") =
      (none, some "coerce_error:ValueError") := by
  constructor
  · rw [decimal_coercion_amended noParse "amount" _ (Or.inl rfl) (by decide)]
    have hp : pyFloat (keepChars isNumC (pyStrip " $1,234.50 ")) =
        some ⟨false, (digitsToNat ['1', '2', '3', '4'] : ℚ) +
          (digitsToNat ['5', '0'] : ℚ) / (10 : ℚ) ^ 2⟩ := rfl
    rw [hp]
    change (some (formatTwo _), (none : Option String)) = _
    have hm : formatTwo ⟨false, (digitsToNat ['1', '2', '3', '4'] : ℚ) +
        (digitsToNat ['5', '0'] : ℚ) / (10 : ℚ) ^ 2⟩ = "1234.50" := by
      rw [formatTwo, formatFixed_eval 2 false _ 123450 (by
        rw [show digitsToNat ['1', '2', '3', '4'] = 1234 from rfl,
            show digitsToNat ['5', '0'] = 50 from rfl]
        norm_num)]
      decide
    rw [hm]
  · rw [decimal_coercion_amended noParse "price" _ (Or.inr rfl) (by decide)]
    rfl

/-! ## C4 — date coercion -/

theorem foldrOrElse_of_first {α : Type} (L : List (Option α)) (i : ℕ)
    (hi : i < L.length) (d : α) (h : L.get ⟨i, hi⟩ = some d)
    (hprev : ∀ (j : ℕ) (hj : j < i), L.get ⟨j, Nat.lt_trans hj hi⟩ = none) :
    L.foldr (fun r acc => r.orElse fun _ => acc) none = some d := by
  induction L generalizing i with
  | nil => exact absurd hi (Nat.not_lt_zero i)
  | cons a t ih =>
    cases i with
    | zero =>
      simp only [List.get] at h
      simp [List.foldr, h, Option.orElse]
    | succ k =>
      have ha : a = none := hprev 0 (Nat.succ_pos k)
      simp only [List.foldr, ha, Option.orElse]
      exact ih k (Nat.lt_of_succ_lt_succ hi) h
        (fun j hj => hprev (j + 1) (Nat.succ_lt_succ hj))

theorem foldrOrElse_of_none {α : Type} (L : List (Option α))
    (h : ∀ (i : ℕ) (hi : i < L.length), L.get ⟨i, hi⟩ = none) :
    L.foldr (fun r acc => r.orElse fun _ => acc) none = none := by
  induction L with
  | nil => rfl
  | cons a t ih =>
    have ha : a = none := h 0 (Nat.succ_pos t.length)
    simp only [List.foldr, ha, Option.orElse]
    exact ih fun i hi => h (i + 1) (Nat.succ_lt_succ hi)

/-- The `occurred_at` branch of `_coerce_value`, extracted. -/
theorem coerce_occurred_at (g : String → Option PyDate) (v : String)
    (hv : pyStrip v = v) (hne : v ≠ "") :
    coerceValue g "occurred_at" (some v) =
      match tryFormats v with
      | some d => (some (isoDate d), none)
      | none =>
        match g v with
        | some d => (some (isoDate d), none)
        | none => (none, some ("unrecognized_date:" ++ v)) := by
  simp [coerceValue, hv, hne]

/-- C4: for every non-empty `occurred_at` value the coercer tries the
    six fixed formats in source order (first success wins), then the
    general parser; any success renders `YYYY-MM-DD`, otherwise the
    field is absent with `unrecognized_date:<raw>`.  The concrete
    examples `"2024-01-02"`, `"01/02/2024"`, `"Jan 2, 2024"` all give
    `"2024-01-02"`, and `"not a date"` fails. -/
theorem date_coercion :
    (∀ (g : String → Option PyDate) (v : String), pyStrip v = v → v ≠ "" →
      (∀ (i : ℕ) (hi : i < dateFormats.length) (d : PyDate),
        runFmt (dateFormats.get ⟨i, hi⟩) v.data = some d →
        (∀ (j : ℕ) (hj : j < i),
          runFmt (dateFormats.get ⟨j, Nat.lt_trans hj hi⟩) v.data = none) →
        coerceValue g "occurred_at" (some v) = (some (isoDate d), none)) ∧
      ((∀ (i : ℕ) (hi : i < dateFormats.length),
          runFmt (dateFormats.get ⟨i, hi⟩) v.data = none) →
        (∀ d, g v = some d →
          coerceValue g "occurred_at" (some v) = (some (isoDate d), none)) ∧
        (g v = none →
          coerceValue g "occurred_at" (some v) =
            (none, some ("unrecognized_date:" ++ v))))) ∧
    (∀ g, coerceValue g "occurred_at" (some "2024-01-02") = (some "2024-01-02", none)) ∧
    (∀ g, coerceValue g "occurred_at" (some "01/02/2024") = (some "2024-01-02", none)) ∧
    (∀ g, coerceValue g "occurred_at" (some "Jan 2, 2024") = (some "2024-01-02", none)) ∧
    (∀ g, g "not a date" = none →
      coerceValue g "occurred_at" (some "not a date") =
        (none, some "unrecognized_date:not a date")) := by
  refine ⟨fun g v hv hne => ⟨fun i hi d hd hprev => ?_, fun hnone => ⟨fun d hd => ?_, fun hd => ?_⟩⟩,
    fun g => rfl, fun g => rfl, fun g => rfl, fun g hg => ?_⟩
  · rw [coerce_occurred_at g v hv hne]
    have ht : tryFormats v = some d := by
      unfold tryFormats
      refine foldrOrElse_of_first _ i (by simpa using hi) d ?_ ?_
      · rw [List.get_map]; exact hd
      · intro j hj; rw [List.get_map]; exact hprev j hj
    rw [ht]
  · rw [coerce_occurred_at g v hv hne]
    have ht : tryFormats v = none := by
      unfold tryFormats
      refine foldrOrElse_of_none _ ?_
      intro i hi; rw [List.get_map]; exact hnone i (by simpa using hi)
    rw [ht, hd]
  · rw [coerce_occurred_at g v hv hne]
    have ht : tryFormats v = none := by
      unfold tryFormats
      refine foldrOrElse_of_none _ ?_
      intro i hi; rw [List.get_map]; exact hnone i (by simpa using hi)
    rw [ht, hd]
  · rw [coerce_occurred_at g "not a date" rfl (by decide),
      show tryFormats "not a date" = none from rfl, hg]
    rfl

/-- Witness for C4 at concrete inputs: `"13/02/2024"` is parsed by the
    fifth format `%d/%m/%Y` (the first four fail), and `"not a date"`
    fails all formats and the general parser. -/
theorem date_coercion_witness :
    coerceValue noParse "occurred_at" (some "13/02/2024") = (some "2024-02-13", none) ∧
    coerceValue noParse "occurred_at" (some "not a date") =
      (none, some "unrecognized_date:not a date") := by
  constructor
  · exact (date_coercion.1 noParse "13/02/2024" rfl (by decide)).1 4 (by decide)
      ⟨2024, 2, 13⟩ (by decide) (by intro j hj; interval_cases j <;> rfl)
  · exact ((date_coercion.1 noParse "not a date" rfl (by decide)).2
      (by
        intro i hi
        have h6 : i < 6 := by simpa [dateFormats] using hi
        interval_cases i <;> rfl)).2 rfl

/-! ## C10 — credit-store charge atomicity -/

/-- C10: `KeyStore.charge` raises HTTP 402 and performs no write when
    the stored balance is ≤ 0; for a positive balance it decrements by
    `delta`, persists exactly that write, and returns the new balance
    (which then reads back from the store). -/
theorem keystore_charge (st : Balances) (k : String) (delta : ℤ) :
    (getBalance st k ≤ 0 → charge st k delta = (.error 402, [])) ∧
    (0 < getBalance st k →
      charge st k delta =
        (.ok (getBalance st k - delta), [setBalance st k (getBalance st k - delta)]) ∧
      getBalance (setBalance st k (getBalance st k - delta)) k =
        getBalance st k - delta) := by
  constructor
  · intro h; simp [charge, h]
  · intro h
    refine ⟨by simp [charge, not_le.mpr h], ?_⟩
    simp [getBalance, setBalance, dget_dset_self]

/-- Witness for C10: a key with balance 5 is charged 2 leaving 3 and a
    single persisting write; a key with balance 0 gets error 402 and no
    write. -/
theorem keystore_charge_witness :
    charge [("k", 5)] "k" 2 = (.ok 3, [[("k", 3)]]) ∧
    charge [("z", 0)] "z" 1 = (.error 402, []) :=
  ⟨((keystore_charge [("k", 5)] "k" 2).2 (by decide)).1,
   (keystore_charge [("z", 0)] "z" 1).1 (by decide)⟩

/-! ## C8 — payment-processor event mapping -/

/-- C8: for every stripe payload carrying the relevant fields whose
    `created` is a timestamp `datetime` can represent (years 1..9999;
    outside that range `_utc_ts` falls back to the wall clock), the
    canonical event has `event_id = payload.id`, `occurred_at` the
    RFC 3339 UTC rendering of `payload.created`, `actor.id =
    data.object.customer`, `subject = {type: data.object.object, id:
    data.object.id}`, `action = payload.type`, and `metadata =
    data.object` with exactly the keys `id`, `object`, `customer`
    removed. -/
theorem stripe_mapping (now : String) (payload : Json) (i t : String) (n : ℤ)
    (objFields : List (String × Json)) (cust oid otype : Json)
    (hid : payload.get "id" = some (.str i))
    (htype : payload.get "type" = some (.str t))
    (hcreated : payload.get "created" = some (.int n))
    (hobj : (payload.getD "data" (Json.obj [])).getD "object" (Json.obj []) =
      Json.obj objFields)
    (hcust : dget objFields "customer" = some cust)
    (hoid : dget objFields "id" = some oid)
    (hotype : dget objFields "object" = some otype)
    (hrange : -62135596800 ≤ n ∧ n < 253402300800) :
    normalize_stripe now payload =
      { event_id := i
        source := "stripe"
        occurred_at := unixToIso n
        actor := some [("id", cust)]
        subject := some [("type", otype), ("id", oid)]
        action := t
        metadata := some (objFields.filter fun kv =>
          ¬(kv.1 = "id" ∨ kv.1 = "object" ∨ kv.1 = "customer"))
        trace := [[("op", .str "map"), ("field", .str "amount"),
                   ("from", .str "amount"), ("to", .str "amount")]] } := by
  have htype' : payload.getD "type" (Json.str "unknown") = .str t := by
    simp [Json.getD, htype]
  simp only [normalize_stripe]
  rw [hobj, hid, htype', hcreated]
  simp [Json.get, Json.getD, hcust, hoid, hotype, pyStr, utcTs,
    hrange.1, hrange.2]

/-- Witness for C8 at the S4 payload: `metadata.amount = 1299` and
    `occurred_at = "2023-11-14T22:13:20+00:00"`. -/
theorem stripe_mapping_witness :
    normalize_stripe "now" stripeS4 =
      { event_id := "evt_1"
        source := "stripe"
        occurred_at := "2023-11-14T22:13:20+00:00"
        actor := some [("id", .str "cus_1")]
        subject := some [("type", .str "charge"), ("id", .str "ch_1")]
        action := "charge.succeeded"
        metadata := some [("amount", .int 1299)]
        trace := [[("op", .str "map"), ("field", .str "amount"),
                   ("from", .str "amount"), ("to", .str "amount")]] } := by
  rw [stripe_mapping "now" stripeS4 "evt_1" "charge.succeeded" 1700000000
    [("id", .str "ch_1"), ("object", .str "charge"),
     ("customer", .str "cus_1"), ("amount", .int 1299)]
    (.str "cus_1") (.str "ch_1") (.str "charge") rfl rfl rfl rfl rfl rfl rfl
    (by decide)]
  rfl

/-! ## C9 — name splitting (corrected) -/

/-- C9 counterexample: the claim says a name containing whitespace is
    split at the first whitespace, but the source splits only on the
    space character; `"Jane\tDoe"` (tab) is treated as a single token,
    so `first_name` keeps the whole string and `last_name` is absent. -/
theorem name_split_counterexample :
    specNameSplit "Jane\tDoe" = (some "Jane", some "Doe") ∧
    (normalize_contact_json [("name", "Jane\tDoe")]).first_name = some "Jane\tDoe" ∧
    (normalize_contact_json [("name", "Jane\tDoe")]).last_name = none ∧
    (some "Jane\tDoe" : Option String) ≠ some "Jane" :=
  ⟨rfl, rfl, rfl, by decide⟩

/-- C9 (amended): on a contact object carrying a non-empty name, a name
    containing a comma splits as "Last, First" (both sides stripped); a
    comma-free name containing a *space character* splits at the first
    space as "First Last"; any other name (single token, including
    names with non-space whitespace) sets `first_name` to the whole
    name and leaves `last_name` absent; a `parse_name` trace entry is
    emitted. -/
theorem name_split_amended (data : List (String × String)) (name : String)
    (hn : pyStrip (getOr data ["name", "Name", "full_name"]) = name)
    (hne : name ≠ "") :
    (',' ∈ name.data →
      (normalize_contact_json data).first_name = optOfStr (pyStrip (splitOnce ',' name).2) ∧
      (normalize_contact_json data).last_name = optOfStr (pyStrip (splitOnce ',' name).1)) ∧
    (',' ∉ name.data → ' ' ∈ name.data →
      (normalize_contact_json data).first_name = optOfStr (splitOnce ' ' name).1 ∧
      (normalize_contact_json data).last_name = optOfStr (splitOnce ' ' name).2) ∧
    (',' ∉ name.data → ' ' ∉ name.data →
      (normalize_contact_json data).first_name = some name ∧
      (normalize_contact_json data).last_name = none) ∧
    "parse_name" ∈ (normalize_contact_json data).traceOps := by
  refine ⟨fun hc => ?_, fun hc hs => ?_, fun hc hs => ?_, ?_⟩
  · simp [normalize_contact_json, hn, hc, optOfStr]
  · simp [normalize_contact_json, hn, hc, hs, optOfStr]
  · simp [normalize_contact_json, hn, hc, hs, hne]
  · simp [normalize_contact_json, hn, hne]

/-- Witness for C9 at the S6 input `{Name: "Doe, Jane"}`. -/
theorem name_split_amended_witness :
    (normalize_contact_json [("Name", "Doe, Jane")]).first_name = some "Jane" ∧
    (normalize_contact_json [("Name", "Doe, Jane")]).last_name = some "Doe" := by
  have h := (name_split_amended [("Name", "Doe, Jane")] "Doe, Jane" rfl
    (by decide)).1 (by decide)
  exact ⟨h.1.trans rfl, h.2.trans rfl⟩

/-! ## C1 — no partial writes (code bug) -/

/-- C1 failing input: schema `products`, header `Weight (lb)`, value
    `"1.2.3"`.  The numeric portion cannot be extracted (`float`
    fails), so the unit conversion is skipped and the raw uncoerced
    string `"1.2.3"` is left in `weight_kg`; no `coerce_error` trace
    entry exists anywhere (the engine emits no trace at all). -/
theorem partial_write_bug :
    (repairRows noParse productsSchema [["Weight (lb)"], ["1.2.3"]]).rows_out =
      [[("sku", none), ("name", none), ("price", none), ("currency", none),
        ("category", none), ("weight_kg", some "1.2.3"), ("length_m", none)]] ∧
    (repairRows noParse productsSchema [["Weight (lb)"], ["1.2.3"]]).summary.mappedHeaders =
      [(0, some "weight_kg")] ∧
    repairEmittedTrace productsSchema [["Weight (lb)"], ["1.2.3"]] = [] :=
  ⟨rfl, rfl, rfl⟩

/-! ## C2 — trace coverage (corrected) -/

/-- C2 counterexample: the engine emits no trace entries at all, so an
    input with one column has zero (not one) `map_header`/`unmapped`
    entries. -/
theorem trace_coverage_counterexample :
    ¬ traceCoversKeys ["Email"]
        (repairEmittedTrace contactsSchema [["Email"], ["a@b.com"]]) := by
  intro h
  have h0 := h 0 (by decide)
  exact absurd h0 (by decide)

/-- C2 (amended): the exactly-once coverage holds in
    `summary.mapped_headers`, not in a trace: every input column index
    appears there exactly once, mapped to its resolved canonical field
    or `None`; the engine emits no `map_header`/`unmapped` trace
    entries. -/
theorem header_coverage_amended (g : String → Option PyDate)
    (schema rawHeaders : List String) (rest : List (List String)) :
    (repairRows g schema (rawHeaders :: rest)).summary.mappedHeaders =
      (List.range rawHeaders.length).map
        (fun i => (i, headerMap schema rawHeaders i)) ∧
    (∀ i : ℕ,
      ((repairRows g schema (rawHeaders :: rest)).summary.mappedHeaders.countP
        (fun p => p.1 == i)) = if i < rawHeaders.length then 1 else 0) ∧
    repairEmittedTrace schema (rawHeaders :: rest) = [] := by
  refine ⟨rfl, fun i => ?_, rfl⟩
  show ((List.range rawHeaders.length).map
      (fun j => (j, headerMap schema rawHeaders j))).countP (fun p => p.1 == i) = _
  rw [List.countP_map]
  show List.count i (List.range rawHeaders.length) = _
  by_cases hlt : i < rawHeaders.length
  · rw [if_pos hlt]
    exact List.count_eq_one_of_mem (List.nodup_range _) (List.mem_range.mpr hlt)
  · rw [if_neg hlt]
    exact List.count_eq_zero_of_not_mem fun hmem => hlt (List.mem_range.mp hmem)

/-! ## C3 — duplicate-header resolution (corrected) -/

/-- C3 counterexample: with duplicate headers `["Email", "E-Mail"]` both
    columns resolve to `email` and the *later* column wins — the output
    email is `"x@y.com"`, not `"a@b.com"` as the claim states — and the
    second column is still mapped (not marked unmapped, no
    `duplicate_of` detail anywhere). -/
theorem duplicate_header_counterexample :
    (repairRows noParse contactsSchema
        [["Email", "E-Mail"], ["A@B.COM", "x@y.com"]]).rows_out =
      [[("email", some "x@y.com"), ("phone", none), ("first_name", none),
        ("last_name", none), ("company", none)]] ∧
    (some "x@y.com" : Option String) ≠ some "a@b.com" ∧
    (repairRows noParse contactsSchema
        [["Email", "E-Mail"], ["A@B.COM", "x@y.com"]]).summary.mappedHeaders =
      [(0, some "email"), (1, some "email")] ∧
    repairEmittedTrace contactsSchema [["Email", "E-Mail"], ["A@B.COM", "x@y.com"]] = [] :=
  ⟨rfl, by decide, rfl, rfl⟩

/-- `unitAdjust` writes only to its own target key. -/
theorem dget_unitAdjust_ne (target rawHeader val : String) (out af : OutRow)
    (f : String) (h : f ≠ target) :
    dget (unitAdjust target rawHeader val out af).1 f = dget out f := by
  unfold unitAdjust
  cases extractHeaderUnit rawHeader with
  | none => rfl
  | some u =>
    cases pyFloat (keepChars isNumC val) with
    | none => rfl
    | some fl => simp only [dget_dset_ne out target f _ h]

/-- The row loop leaves, at every field other than `weight_kg` /
    `length_m`, the coercion of the value of the *last* cell whose
    column resolves to that field (later duplicate columns overwrite
    earlier ones), and the accumulator value where no cell maps to it. -/
theorem go_lastWins (g : String → Option PyDate) (schema rawHeaders : List String)
    (f : String) (hf1 : f ≠ "weight_kg") (hf2 : f ≠ "length_m") :
    ∀ (vals : List String) (i : ℕ) (out : OutRow) (bf : List (String × String))
      (af : OutRow),
      dget (processRow.go g schema rawHeaders i vals out bf af).1 f =
        match lastMappedFrom schema rawHeaders i vals f with
        | some v => some (coerceValue g f (some v)).1
        | none => dget out f := by
  intro vals
  induction vals with
  | nil => intro i out bf af; rfl
  | cons v rest ih =>
    intro i out bf af
    cases hm : headerMap schema rawHeaders i with
    | none =>
      have hgo : processRow.go g schema rawHeaders i (v :: rest) out bf af =
          processRow.go g schema rawHeaders (i + 1) rest out bf af := by
        simp only [processRow.go, hm]
      rw [hgo, ih]
      simp only [lastMappedFrom, hm]
      cases lastMappedFrom schema rawHeaders (i + 1) rest f <;> simp
    | some target =>
      by_cases ht : target = f
      · subst ht
        have hunit : ¬(target = "weight_kg" ∨ target = "length_m") := by
          intro hc; rcases hc with hc | hc
          · exact hf1 hc
          · exact hf2 hc
        have hgo : processRow.go g schema rawHeaders i (v :: rest) out bf af =
            processRow.go g schema rawHeaders (i + 1) rest
              (dset out target (coerceValue g target (some v)).1)
              (dset bf target v)
              (dset af target (coerceValue g target (some v)).1) := by
          simp only [processRow.go, hm, if_neg hunit]
        rw [hgo, ih]
        simp only [lastMappedFrom, hm, if_pos rfl]
        cases lastMappedFrom schema rawHeaders (i + 1) rest target with
        | none => simp [dget_dset_self]
        | some w => simp
      · have hlast : lastMappedFrom schema rawHeaders i (v :: rest) f =
            lastMappedFrom schema rawHeaders (i + 1) rest f := by
          simp only [lastMappedFrom, hm]
          cases lastMappedFrom schema rawHeaders (i + 1) rest f with
          | none => rw [if_neg (fun hc => ht (Option.some.inj hc))]
          | some w => rfl
        by_cases hu : target = "weight_kg" ∨ target = "length_m"
        · have hgo : processRow.go g schema rawHeaders i (v :: rest) out bf af =
              processRow.go g schema rawHeaders (i + 1) rest
                (unitAdjust target (rawHeaders.getD i "") v
                  (dset out target (coerceValue g target (some v)).1)
                  (dset af target (coerceValue g target (some v)).1)).1
                (dset bf target v)
                (unitAdjust target (rawHeaders.getD i "") v
                  (dset out target (coerceValue g target (some v)).1)
                  (dset af target (coerceValue g target (some v)).1)).2 := by
            simp only [processRow.go, hm, if_pos hu]
          rw [hgo, ih, hlast]
          cases lastMappedFrom schema rawHeaders (i + 1) rest f with
          | some w => rfl
          | none =>
            simp only []
            rw [dget_unitAdjust_ne _ _ _ _ _ _ (fun hc => ht hc.symm),
              dget_dset_ne _ _ _ _ (fun hc => ht hc.symm)]
        · have hgo : processRow.go g schema rawHeaders i (v :: rest) out bf af =
              processRow.go g schema rawHeaders (i + 1) rest
                (dset out target (coerceValue g target (some v)).1)
                (dset bf target v)
                (dset af target (coerceValue g target (some v)).1) := by
            simp only [processRow.go, hm, if_neg hu]
          rw [hgo, ih, hlast]
          cases lastMappedFrom schema rawHeaders (i + 1) rest f with
          | some w => rfl
          | none =>
            simp only []
            rw [dget_dset_ne _ _ _ _ (fun hc => ht hc.symm)]

/-- C3 (amended): when two or more input keys resolve to the same
    canonical field, the *latest* such key wins — each later duplicate
    column overwrites the earlier value — and duplicate keys stay
    mapped (no `unmapped` marking and no `duplicate_of` detail is ever
    produced).  Stated for fields outside the unit-converted pair. -/
theorem duplicate_header_amended (g : String → Option PyDate)
    (schema rawHeaders row : List String) (f : String)
    (hf1 : f ≠ "weight_kg") (hf2 : f ≠ "length_m") :
    dget (processRow g schema rawHeaders row).1 f =
      match lastMappedFrom schema rawHeaders 0 row f with
      | some v => some (coerceValue g f (some v)).1
      | none => dget (schema.map fun k => (k, (none : Option String))) f :=
  go_lastWins g schema rawHeaders f hf1 hf2 row 0 _ [] []

/-- Witness for C3: at the duplicate-header input, the amended rule
    gives `email = "x@y.com"` (the later column's coercion). -/
theorem duplicate_header_amended_witness :
    dget (processRow noParse contactsSchema ["Email", "E-Mail"]
        ["A@B.COM", "x@y.com"]).1 "email" = some (some "x@y.com") := by
  rw [duplicate_header_amended noParse contactsSchema ["Email", "E-Mail"]
    ["A@B.COM", "x@y.com"] "email" (by decide) (by decide)]
  rfl

/-! ## C7 — idempotence: character and trimming groundwork -/

theorem charOfNat_toNat (n : ℕ) (h : n < 55296) : (Char.ofNat n).toNat = n := by
  have hv : n.isValidChar := Or.inl h
  rw [Char.ofNat, dif_pos hv]
  rfl

theorem isWs_false_of_ge (c : Char) (h : 45 ≤ c.toNat) : isWs c = false := by
  have h1 : c ≠ ' ' := fun hc => absurd (hc ▸ h) (by decide)
  have h2 : c ≠ '\t' := fun hc => absurd (hc ▸ h) (by decide)
  have h3 : c ≠ '\n' := fun hc => absurd (hc ▸ h) (by decide)
  have h4 : c ≠ '\r' := fun hc => absurd (hc ▸ h) (by decide)
  simp [isWs, h1, h2, h3, h4]

theorem isWs_lowerChar (c : Char) : isWs (lowerChar c) = isWs c := by
  unfold lowerChar
  by_cases h : 65 ≤ c.toNat ∧ c.toNat ≤ 90
  · rw [if_pos h]
    have ht : (Char.ofNat (c.toNat + 32)).toNat = c.toNat + 32 :=
      charOfNat_toNat _ (by omega)
    have h1 : isWs (Char.ofNat (c.toNat + 32)) = false :=
      isWs_false_of_ge _ (by rw [ht]; omega)
    have h2 : isWs c = false := isWs_false_of_ge _ (by omega)
    rw [h1, h2]
  · rw [if_neg h]

theorem lowerChar_idem (c : Char) : lowerChar (lowerChar c) = lowerChar c := by
  by_cases h : 65 ≤ c.toNat ∧ c.toNat ≤ 90
  · have h1 : lowerChar c = Char.ofNat (c.toNat + 32) := by rw [lowerChar, if_pos h]
    have ht : (Char.ofNat (c.toNat + 32)).toNat = c.toNat + 32 :=
      charOfNat_toNat _ (by omega)
    rw [h1, lowerChar, if_neg (by rw [ht]; omega)]
  · have h1 : lowerChar c = c := by rw [lowerChar, if_neg h]
    rw [h1, h1]

theorem upperChar_toNat_of_lower (c : Char) (h : 97 ≤ c.toNat ∧ c.toNat ≤ 122) :
    (upperChar c).toNat = c.toNat - 32 := by
  rw [upperChar, if_pos h, charOfNat_toNat _ (by omega)]

theorem upperChar_idem (c : Char) : upperChar (upperChar c) = upperChar c := by
  by_cases h : 97 ≤ c.toNat ∧ c.toNat ≤ 122
  · have ht := upperChar_toNat_of_lower c h
    conv_lhs => rw [upperChar]
    rw [if_neg (by rw [ht]; omega)]
  · have h1 : upperChar c = c := by rw [upperChar, if_neg h]
    rw [h1, h1]

theorem isAsciiAlpha_upperChar (c : Char) :
    isAsciiAlpha (upperChar c) = isAsciiAlpha c := by
  by_cases h : 97 ≤ c.toNat ∧ c.toNat ≤ 122
  · have ht := upperChar_toNat_of_lower c h
    have hl : isAsciiAlpha (upperChar c) = true := by
      simp only [isAsciiAlpha, Bool.or_eq_true, decide_eq_true_eq, ht]
      omega
    have hr : isAsciiAlpha c = true := by
      simp only [isAsciiAlpha, Bool.or_eq_true, decide_eq_true_eq]
      omega
    rw [hl, hr]
  · rw [upperChar, if_neg h]

theorem isWs_upperChar (c : Char) : isWs (upperChar c) = isWs c := by
  by_cases h : 97 ≤ c.toNat ∧ c.toNat ≤ 122
  · have ht := upperChar_toNat_of_lower c h
    rw [isWs_false_of_ge _ (by rw [ht]; omega), isWs_false_of_ge _ (by omega)]
  · rw [upperChar, if_neg h]

theorem isWs_false_of_alpha (c : Char) (h : isAsciiAlpha c = true) :
    isWs c = false := by
  simp only [isAsciiAlpha, Bool.or_eq_true, decide_eq_true_eq] at h
  exact isWs_false_of_ge c (by omega)

theorem isWs_false_of_digit (c : Char) (h : isDigitC c = true) : isWs c = false := by
  simp only [isDigitC, decide_eq_true_eq] at h
  exact isWs_false_of_ge c (by omega)

theorem isWs_false_of_num (c : Char) (h : isNumC c = true) : isWs c = false := by
  have h45 : 45 ≤ c.toNat := by
    simp only [isNumC, isDigitC, Bool.or_eq_true, decide_eq_true_eq] at h
    rcases h with (h | h) | h
    · omega
    · subst h; decide
    · subst h; decide
  exact isWs_false_of_ge c h45

theorem dropWhile_head_false {α : Type} (p : α → Bool) :
    ∀ (l : List α) (c : α) (t : List α), l.dropWhile p = c :: t → p c = false := by
  intro l
  induction l with
  | nil => intro c t h; simp [List.dropWhile] at h
  | cons a l ih =>
    intro c t h
    by_cases hp : p a
    · rw [List.dropWhile_cons, if_pos hp] at h
      exact ih c t h
    · rw [List.dropWhile_cons, if_neg hp] at h
      cases h
      simpa using hp

theorem dropWhile_idem {α : Type} (p : α → Bool) (l : List α) :
    (l.dropWhile p).dropWhile p = l.dropWhile p := by
  cases hd : l.dropWhile p with
  | nil => rfl
  | cons c t =>
    rw [List.dropWhile_cons, if_neg (by simp [dropWhile_head_false p l c t hd])]

theorem dropWhile_getLast? {α : Type} (p : α → Bool) (l : List α)
    (h : l.dropWhile p ≠ []) : (l.dropWhile p).getLast? = l.getLast? := by
  obtain ⟨pre, hpre⟩ := List.dropWhile_suffix (l := l) p
  conv_rhs => rw [← hpre]
  rw [List.getLast?_append]
  cases hu : (l.dropWhile p).getLast? with
  | none => exact absurd (List.getLast?_eq_none_iff.mp hu) h
  | some a => rfl

theorem trimChars_head_ws (l : List Char) (c : Char) (t : List Char)
    (h : trimChars l = c :: t) : isWs c = false := by
  unfold trimChars at h
  set u := (l.dropWhile isWs).reverse.dropWhile isWs with hu
  have hne : u ≠ [] := by
    intro h0
    rw [h0] at h
    exact List.noConfusion h
  have h1 : u.getLast? = (l.dropWhile isWs).reverse.getLast? := dropWhile_getLast? _ _ hne
  rw [List.getLast?_reverse] at h1
  have h2 : u.reverse.head? = u.getLast? := List.head?_reverse u
  rw [h, h1] at h2
  cases hd : l.dropWhile isWs with
  | nil =>
    rw [hd] at hu
    simp [hu] at hne
  | cons c0 t0 =>
    rw [hd] at h2
    simp only [List.head?] at h2
    injection h2 with hcc
    rw [hcc]
    exact dropWhile_head_false isWs l c0 t0 hd

theorem dropWhile_eq_self_of_head {α : Type} (p : α → Bool) (c : α) (t : List α)
    (h : p c = false) : (c :: t).dropWhile p = c :: t := by
  rw [List.dropWhile_cons, if_neg (by simp [h])]

theorem trimChars_idem (l : List Char) : trimChars (trimChars l) = trimChars l := by
  have hA : (trimChars l).dropWhile isWs = trimChars l := by
    cases ht : trimChars l with
    | nil => rfl
    | cons c t => exact dropWhile_eq_self_of_head isWs c t (trimChars_head_ws l c t ht)
  show ((((trimChars l).dropWhile isWs).reverse.dropWhile isWs).reverse) = trimChars l
  rw [hA]
  have hB : (trimChars l).reverse = (l.dropWhile isWs).reverse.dropWhile isWs := by
    unfold trimChars
    rw [List.reverse_reverse]
  rw [hB, dropWhile_idem, ← hB, List.reverse_reverse]

theorem trimChars_eq_self (l : List Char) (h : ∀ c ∈ l, isWs c = false) :
    trimChars l = l := by
  unfold trimChars
  have h1 : l.dropWhile isWs = l := by
    cases l with
    | nil => rfl
    | cons c t => exact dropWhile_eq_self_of_head isWs c t (h c (List.mem_cons_self c t))
  rw [h1]
  have h2 : l.reverse.dropWhile isWs = l.reverse := by
    cases hr : l.reverse with
    | nil => rfl
    | cons c t =>
      refine dropWhile_eq_self_of_head isWs c t (h c ?_)
      rw [← List.mem_reverse, hr]
      exact List.mem_cons_self c t
  rw [h2, List.reverse_reverse]

theorem trimChars_map_lower (l : List Char) :
    trimChars (l.map lowerChar) = (trimChars l).map lowerChar := by
  unfold trimChars
  have hcomp : (isWs ∘ lowerChar) = isWs := funext fun c => isWs_lowerChar c
  rw [List.dropWhile_map, hcomp, ← List.map_reverse, List.dropWhile_map, hcomp,
    List.map_reverse]

theorem pyStrip_pyLower (s : String) :
    pyStrip (pyLower s) = pyLower (pyStrip s) := by
  unfold pyStrip pyLower
  simp only
  rw [trimChars_map_lower]

theorem pyStrip_idem (s : String) : pyStrip (pyStrip s) = pyStrip s := by
  unfold pyStrip
  simp only
  rw [trimChars_idem]

theorem pyLower_idem (s : String) : pyLower (pyLower s) = pyLower s := by
  unfold pyLower
  simp only
  rw [List.map_map,
    show (lowerChar ∘ lowerChar) = lowerChar from funext fun c => lowerChar_idem c]

theorem pyStrip_eq_self (s : String) (h : ∀ c ∈ s.data, isWs c = false) :
    pyStrip s = s := by
  unfold pyStrip
  rw [trimChars_eq_self s.data h]

/-! ### Decimal rendering and parsing lemmas -/

theorem digitChar_toNat (d : ℕ) (h : d < 10) : (digitChar d).toNat = 48 + d :=
  charOfNat_toNat _ (by omega)

theorem isDigitC_digitChar (d : ℕ) (h : d < 10) : isDigitC (digitChar d) = true := by
  simp only [isDigitC, decide_eq_true_eq, digitChar_toNat d h]
  omega

theorem natDigitsAux_digits :
    ∀ (fuel n : ℕ) (c : Char), c ∈ natDigitsAux fuel n → isDigitC c = true := by
  intro fuel
  induction fuel with
  | zero => intro n c hc; simp [natDigitsAux] at hc
  | succ fuel ih =>
    intro n c hc
    rw [natDigitsAux] at hc
    by_cases hn : n = 0
    · rw [if_pos hn] at hc; simp at hc
    · rw [if_neg hn] at hc
      rcases List.mem_cons.mp hc with h | h
      · rw [h]; exact isDigitC_digitChar _ (Nat.mod_lt n (by omega))
      · exact ih _ c h

theorem digitsToNat_append_digit (l : List Char) (c : Char) :
    digitsToNat (l ++ [c]) = digitsToNat l * 10 + (c.toNat - 48) := by
  unfold digitsToNat
  rw [List.foldl_append]
  rfl

theorem natDigitsAux_val :
    ∀ (fuel n : ℕ), n ≤ fuel → digitsToNat (natDigitsAux fuel n).reverse = n := by
  intro fuel
  induction fuel with
  | zero => intro n h; interval_cases n; rfl
  | succ fuel ih =>
    intro n h
    rw [natDigitsAux]
    by_cases hn : n = 0
    · rw [if_pos hn, hn]; rfl
    · rw [if_neg hn, List.reverse_cons, digitsToNat_append_digit]
      have h10 : n / 10 ≤ fuel := by
        have := Nat.div_lt_self (Nat.pos_of_ne_zero hn) (by omega : 1 < 10)
        omega
      rw [ih _ h10, digitChar_toNat _ (Nat.mod_lt n (by omega))]
      omega

theorem natStr_data_digits (n : ℕ) : ∀ c ∈ (natStr n).data, isDigitC c = true := by
  intro c hc
  unfold natStr at hc
  by_cases hn : n = 0
  · rw [if_pos hn] at hc
    have : c = '0' := by simpa using hc
    rw [this]; decide
  · rw [if_neg hn] at hc
    exact natDigitsAux_digits n n c (List.mem_reverse.mp hc)

theorem natStr_data_ne (n : ℕ) : (natStr n).data ≠ [] := by
  unfold natStr
  by_cases hn : n = 0
  · rw [if_pos hn]; simp
  · rw [if_neg hn]
    cases n with
    | zero => exact absurd rfl hn
    | succ m =>
      rw [natDigitsAux, if_neg hn]
      simp

theorem natStr_val (n : ℕ) : digitsToNat (natStr n).data = n := by
  unfold natStr
  by_cases hn : n = 0
  · rw [if_pos hn, hn]; rfl
  · rw [if_neg hn]; exact natDigitsAux_val n n le_rfl

theorem natDigitsAux_len :
    ∀ (fuel n w : ℕ), n < 10 ^ w → (natDigitsAux fuel n).length ≤ w := by
  intro fuel
  induction fuel with
  | zero => intro n w _; simp [natDigitsAux]
  | succ fuel ih =>
    intro n w h
    rw [natDigitsAux]
    by_cases hn : n = 0
    · rw [if_pos hn]; simp
    · rw [if_neg hn]
      cases w with
      | zero => simp at h; omega
      | succ w =>
        simp only [List.length_cons]
        have hlt : n / 10 < 10 ^ w := by
          rw [Nat.div_lt_iff_lt_mul (by omega : 0 < 10)]
          calc n < 10 ^ (w + 1) := h
          _ = 10 ^ w * 10 := by ring
        exact Nat.succ_le_succ (ih _ _ hlt)

theorem natStr_len_le (n w : ℕ) (hw : 1 ≤ w) (h : n < 10 ^ w) :
    (natStr n).data.length ≤ w := by
  unfold natStr
  by_cases hn : n = 0
  · rw [if_pos hn]; simpa using hw
  · rw [if_neg hn]
    simpa using natDigitsAux_len n n w h

theorem natStrPad_data (w n : ℕ) :
    (natStrPad w n).data =
      List.replicate (w - (natStr n).length) '0' ++ (natStr n).data := by
  unfold natStrPad
  rw [String.data_append]

theorem natStrPad_len (w n : ℕ) (hw : 1 ≤ w) (h : n < 10 ^ w) :
    (natStrPad w n).data.length = w := by
  rw [natStrPad_data]
  have hlen := natStr_len_le n w hw h
  simp only [List.length_append, List.length_replicate]
  have : (natStr n).length = (natStr n).data.length := rfl
  omega

theorem digitsToNat_replicate_zero (k : ℕ) (l : List Char) :
    digitsToNat (List.replicate k '0' ++ l) = digitsToNat l := by
  induction k with
  | zero => rfl
  | succ k ih =>
    rw [List.replicate_succ, List.cons_append]
    exact ih

theorem natStrPad_val (w n : ℕ) : digitsToNat (natStrPad w n).data = n := by
  rw [natStrPad_data, digitsToNat_replicate_zero, natStr_val]

theorem natStrPad_digits (w n : ℕ) : ∀ c ∈ (natStrPad w n).data, isDigitC c = true := by
  intro c hc
  rw [natStrPad_data] at hc
  rcases List.mem_append.mp hc with h | h
  · rw [List.eq_of_mem_replicate h]; decide
  · exact natStr_data_digits n c h

/-! ### Fixed-point formatting round-trips through `float()` -/

theorem isNumC_of_digit (c : Char) (h : isDigitC c = true) : isNumC c = true := by
  simp [isNumC, h]

theorem digit_ne_minus (c : Char) (h : isDigitC c = true) : c ≠ '-' := by
  intro hc
  rw [hc] at h
  exact absurd h (by decide)

theorem formatFixed_data (prec : ℕ) (f : PyFloat) :
    (formatFixed prec f).data =
      (if f.neg then ['-'] else []) ++
        ((natStr ((round ((10 : ℚ) ^ prec * f.mag)).toNat / 10 ^ prec)).data ++
          '.' :: (natStrPad prec ((round ((10 : ℚ) ^ prec * f.mag)).toNat % 10 ^ prec)).data) := by
  unfold formatFixed
  cases hn : f.neg <;>
    simp [String.data_append, List.append_assoc]

theorem formatFixed_chars (prec : ℕ) (f : PyFloat) :
    ∀ c ∈ (formatFixed prec f).data, isNumC c = true := by
  intro c hc
  rw [formatFixed_data] at hc
  rcases List.mem_append.mp hc with h | h
  · cases hn : f.neg
    · rw [hn] at h; simp at h
    · rw [hn] at h
      have hc' : c = '-' := by simpa using h
      rw [hc']; decide
  · rcases List.mem_append.mp h with h2 | h2
    · exact isNumC_of_digit c (natStr_data_digits _ c h2)
    · rcases List.mem_cons.mp h2 with h3 | h3
      · rw [h3]; decide
      · exact isNumC_of_digit c (natStrPad_digits _ _ c h3)

theorem takeWhile_digits_append (d1 d2 : List Char)
    (h1 : ∀ c ∈ d1, isDigitC c = true) :
    (d1 ++ '.' :: d2).takeWhile isDigitC = d1 := by
  rw [List.takeWhile_append, if_pos]
  · rw [List.takeWhile_cons, if_neg (by decide), List.append_nil]
  · rw [List.takeWhile_eq_self_iff.mpr h1]

theorem dropWhile_digits_append (d1 d2 : List Char)
    (h1 : ∀ c ∈ d1, isDigitC c = true) :
    (d1 ++ '.' :: d2).dropWhile isDigitC = '.' :: d2 := by
  rw [List.dropWhile_append, if_pos]
  · rw [List.dropWhile_cons, if_neg (by decide)]
  · rw [List.dropWhile_eq_nil_iff.mpr h1]
    rfl

theorem pyFloat_formatFixed (prec : ℕ) (hp : 1 ≤ prec) (f : PyFloat) :
    pyFloat (formatFixed prec f) =
      some ⟨f.neg,
        ((((round ((10 : ℚ) ^ prec * f.mag)).toNat / 10 ^ prec : ℕ) : ℚ) +
          (((round ((10 : ℚ) ^ prec * f.mag)).toNat % 10 ^ prec : ℕ) : ℚ) / (10 : ℚ) ^ prec)⟩ := by
  have hd1 := natStr_data_digits ((round ((10 : ℚ) ^ prec * f.mag)).toNat / 10 ^ prec)
  have hd2 := natStrPad_digits prec ((round ((10 : ℚ) ^ prec * f.mag)).toNat % 10 ^ prec)
  have hlen2 : (natStrPad prec ((round ((10 : ℚ) ^ prec * f.mag)).toNat % 10 ^ prec)).data.length = prec :=
    natStrPad_len _ _ hp (Nat.mod_lt _ (by positivity))
  unfold pyFloat
  rw [formatFixed_data]
  cases hd : (natStr ((round ((10 : ℚ) ^ prec * f.mag)).toNat / 10 ^ prec)).data with
  | nil => exact absurd hd (natStr_data_ne _)
  | cons c t =>
    have hcdig : isDigitC c = true := by
      rw [hd] at hd1; exact hd1 c (List.mem_cons_self c t)
    have htdig : ∀ x ∈ c :: t, isDigitC x = true := by rw [← hd]; exact hd1
    cases hneg : f.neg
    · simp only [Bool.false_eq_true, if_false, List.nil_append, List.cons_append]
      rw [if_neg (digit_ne_minus c hcdig)]
      simp only [← List.cons_append]
      rw [takeWhile_digits_append _ _ htdig, dropWhile_digits_append _ _ htdig]
      rw [if_neg (List.cons_ne_nil _ _), if_pos (by rfl),
        if_pos ⟨List.all_eq_true.mpr (by simpa using hd2), Or.inl (List.cons_ne_nil _ _)⟩]
      rw [← hd, natStr_val]
      simp only [List.tail_cons]
      rw [natStrPad_val, hlen2]
    · rw [if_pos rfl, List.singleton_append]
      simp only [List.cons_append]
      simp only [if_true]
      simp only [← List.cons_append]
      rw [takeWhile_digits_append _ _ htdig, dropWhile_digits_append _ _ htdig]
      rw [if_neg (List.cons_ne_nil _ _), if_pos (by rfl),
        if_pos ⟨List.all_eq_true.mpr (by simpa using hd2), Or.inl (List.cons_ne_nil _ _)⟩]
      rw [← hd, natStr_val]
      simp only [List.tail_cons]
      rw [natStrPad_val, hlen2]

/-- Re-formatting the parsed value of a fixed-point rendering gives the
    same string back. -/
theorem formatFixed_refix (prec : ℕ) (f : PyFloat) :
    formatFixed prec
      ⟨f.neg,
        ((((round ((10 : ℚ) ^ prec * f.mag)).toNat / 10 ^ prec : ℕ) : ℚ) +
          (((round ((10 : ℚ) ^ prec * f.mag)).toNat % 10 ^ prec : ℕ) : ℚ) / (10 : ℚ) ^ prec)⟩ =
      formatFixed prec f := by
  have h0 : ((10 : ℚ) ^ prec) ≠ 0 := by positivity
  have hdm := Nat.div_add_mod ((round ((10 : ℚ) ^ prec * f.mag)).toNat) (10 ^ prec)
  have harg : (10 : ℚ) ^ prec *
      ((((round ((10 : ℚ) ^ prec * f.mag)).toNat / 10 ^ prec : ℕ) : ℚ) +
        (((round ((10 : ℚ) ^ prec * f.mag)).toNat % 10 ^ prec : ℕ) : ℚ) / (10 : ℚ) ^ prec) =
      (((round ((10 : ℚ) ^ prec * f.mag)).toNat : ℕ) : ℚ) := by
    rw [mul_add, mul_comm ((10 : ℚ) ^ prec)
      ((((round ((10 : ℚ) ^ prec * f.mag)).toNat % 10 ^ prec : ℕ) : ℚ) / (10 : ℚ) ^ prec),
      div_mul_cancel₀ _ h0]
    exact_mod_cast hdm
  conv_lhs => rw [formatFixed]
  rw [harg, round_natCast, Int.toNat_natCast]
  rfl

/-! ### ISO dates parse back through the first fixed format -/

theorem runFmt_go_valid :
    ∀ (toks : List DTok) (cs : List Char) (y m dd : ℕ) (d : PyDate),
      runFmt.go toks cs y m dd = some d → d.valid = true := by
  intro toks
  induction toks with
  | nil =>
    intro cs y m dd d h
    rw [runFmt.go] at h
    by_cases hcs : cs = []
    · rw [if_pos hcs] at h
      by_cases hv : (⟨y, m, dd⟩ : PyDate).valid = true
      · rw [if_pos hv] at h
        injection h with hd
        rw [← hd]
        exact hv
      · rw [if_neg hv] at h
        exact absurd h (by simp)
    · rw [if_neg hcs] at h
      exact absurd h (by simp)
  | cons tok toks ih =>
    intro cs y m dd d h
    cases tok with
    | Y =>
      rw [runFmt.go] at h
      cases hp : parseY cs with
      | none => rw [hp] at h; exact absurd h (by simp)
      | some p => rw [hp] at h; exact ih _ _ _ _ _ h
    | m2 =>
      rw [runFmt.go] at h
      cases hp : parseM cs with
      | none => rw [hp] at h; exact absurd h (by simp)
      | some p => rw [hp] at h; exact ih _ _ _ _ _ h
    | d2 =>
      rw [runFmt.go] at h
      cases hp : parseD cs with
      | none => rw [hp] at h; exact absurd h (by simp)
      | some p => rw [hp] at h; exact ih _ _ _ _ _ h
    | bMon =>
      rw [runFmt.go] at h
      cases hp : parseB cs with
      | none => rw [hp] at h; exact absurd h (by simp)
      | some p => rw [hp] at h; exact ih _ _ _ _ _ h
    | lit c =>
      rw [runFmt.go] at h
      cases hp : parseLit c cs with
      | none => rw [hp] at h; exact absurd h (by simp)
      | some p => rw [hp] at h; exact ih _ _ _ _ _ h
    | ws =>
      rw [runFmt.go] at h
      cases hp : parseWs cs with
      | none => rw [hp] at h; exact absurd h (by simp)
      | some p => rw [hp] at h; exact ih _ _ _ _ _ h

theorem runFmt_valid (toks : List DTok) (cs : List Char) (d : PyDate)
    (h : runFmt toks cs = some d) : d.valid = true :=
  runFmt_go_valid toks cs 1900 1 1 d h

theorem foldrOrElse_some {α : Type} (L : List (Option α)) (d : α)
    (h : L.foldr (fun r acc => r.orElse fun _ => acc) none = some d) :
    some d ∈ L := by
  induction L with
  | nil => simp at h
  | cons a t ih =>
    simp only [List.foldr] at h
    cases ha : a with
    | none =>
      rw [ha] at h
      simp only [Option.orElse] at h
      exact List.mem_cons_of_mem _ (ih h)
    | some x =>
      rw [ha] at h
      simp only [Option.orElse] at h
      injection h with hx
      rw [hx]
      exact List.mem_cons_self _ _

theorem tryFormats_valid (v : String) (d : PyDate) (h : tryFormats v = some d) :
    d.valid = true := by
  unfold tryFormats at h
  have hm := foldrOrElse_some _ _ h
  rcases List.mem_map.mp hm with ⟨f, _, hf⟩
  exact runFmt_valid f v.data d hf

theorem list_len4 {α : Type} (l : List α) (h : l.length = 4) :
    ∃ a b c d, l = [a, b, c, d] := by
  rcases l with _ | ⟨a, _ | ⟨b, _ | ⟨c, _ | ⟨d, _ | ⟨e, t⟩⟩⟩⟩⟩ <;> simp at h
  exact ⟨a, b, c, d, rfl⟩

theorem list_len2 {α : Type} (l : List α) (h : l.length = 2) :
    ∃ a b, l = [a, b] := by
  rcases l with _ | ⟨a, _ | ⟨b, _ | ⟨c, t⟩⟩⟩ <;> simp at h
  exact ⟨a, b, rfl⟩

theorem daysInMonth_le (y m : ℕ) : daysInMonth y m ≤ 31 := by
  unfold daysInMonth
  by_cases h2 : m = 2
  · rw [if_pos h2]
    by_cases hl : isLeap y = true
    · rw [if_pos hl]; omega
    · rw [if_neg hl]; omega
  · rw [if_neg h2]
    by_cases h4 : m = 4 ∨ m = 6 ∨ m = 9 ∨ m = 11
    · rw [if_pos h4]; omega
    · rw [if_neg h4]

theorem parseY_pad (y : ℕ) (hy : y < 10 ^ 4) (rest : List Char) :
    parseY ((natStrPad 4 y).data ++ rest) = some (y, rest) := by
  obtain ⟨a, b, c, e, hp⟩ := list_len4 _ (natStrPad_len 4 y (by omega) hy)
  have hd : ∀ x ∈ [a, b, c, e], isDigitC x = true := by
    rw [← hp]; exact natStrPad_digits 4 y
  have hval : digitsToNat [a, b, c, e] = y := by rw [← hp]; exact natStrPad_val 4 y
  rw [hp]
  show (if isDigitC a = true ∧ isDigitC b = true ∧ isDigitC c = true ∧ isDigitC e = true
      then some (digitsToNat [a, b, c, e], rest) else none) = some (y, rest)
  rw [if_pos ⟨hd a (by simp), hd b (by simp), hd c (by simp), hd e (by simp)⟩, hval]

theorem parseM_pad (m : ℕ) (h1 : 1 ≤ m) (h2 : m ≤ 12) (rest : List Char) :
    parseM ((natStrPad 2 m).data ++ rest) = some (m, rest) := by
  obtain ⟨a, b, hp⟩ := list_len2 _ (natStrPad_len 2 m (by omega) (by omega))
  have hd : ∀ x ∈ [a, b], isDigitC x = true := by
    rw [← hp]; exact natStrPad_digits 2 m
  have hval : digitsToNat [a, b] = m := by rw [← hp]; exact natStrPad_val 2 m
  rw [hp]
  show (if isDigitC a = true ∧ isDigitC b = true then
      if 1 ≤ digitsToNat [a, b] ∧ digitsToNat [a, b] ≤ 12 then some (digitsToNat [a, b], rest)
      else if isDigitC a = true ∧ a ≠ '0' ∧ digitsToNat [a] ≤ 9 then
        some (digitsToNat [a], b :: rest)
      else none
    else if isDigitC a = true ∧ a ≠ '0' then some (digitsToNat [a], b :: rest)
    else none) = some (m, rest)
  rw [if_pos ⟨hd a (by simp), hd b (by simp)⟩, hval, if_pos ⟨h1, h2⟩]

theorem parseD_pad (dd : ℕ) (h1 : 1 ≤ dd) (h2 : dd ≤ 31) (rest : List Char) :
    parseD ((natStrPad 2 dd).data ++ rest) = some (dd, rest) := by
  obtain ⟨a, b, hp⟩ := list_len2 _ (natStrPad_len 2 dd (by omega) (by omega))
  have hd : ∀ x ∈ [a, b], isDigitC x = true := by
    rw [← hp]; exact natStrPad_digits 2 dd
  have hval : digitsToNat [a, b] = dd := by rw [← hp]; exact natStrPad_val 2 dd
  rw [hp]
  show (if isDigitC a = true ∧ isDigitC b = true then
      if 1 ≤ digitsToNat [a, b] ∧ digitsToNat [a, b] ≤ 31 then some (digitsToNat [a, b], rest)
      else if a ≠ '0' ∧ digitsToNat [a] ≤ 9 then some (digitsToNat [a], b :: rest)
      else none
    else if isDigitC a = true ∧ a ≠ '0' then some (digitsToNat [a], b :: rest)
    else none) = some (dd, rest)
  rw [if_pos ⟨hd a (by simp), hd b (by simp)⟩, hval, if_pos ⟨h1, h2⟩]

theorem parseLit_cons (c : Char) (rest : List Char) :
    parseLit c (c :: rest) = some rest := by
  show (if c = c then some rest else none) = some rest
  rw [if_pos rfl]

/-- `%Y-%m-%d` reparses `date.isoformat()` exactly. -/
theorem runFmt_iso (d : PyDate) (hv : d.valid = true) :
    runFmt [.Y, .lit '-', .m2, .lit '-', .d2] (isoDate d).data = some d := by
  obtain ⟨y, m, dd⟩ := d
  have hb := hv
  simp only [PyDate.valid, Bool.and_eq_true, decide_eq_true_eq] at hb
  obtain ⟨⟨⟨⟨⟨hy1, hy2⟩, hm1⟩, hm2⟩, hd1⟩, hd2⟩ := hb
  have hylt : y < 10 ^ 4 := by omega
  have hdlt : dd ≤ 31 := le_trans hd2 (daysInMonth_le y m)
  have hdata : (isoDate ⟨y, m, dd⟩).data =
      (natStrPad 4 y).data ++
        ('-' :: ((natStrPad 2 m).data ++ ('-' :: ((natStrPad 2 dd).data ++ [])))) := by
    show (natStrPad 4 y ++ "-" ++ natStrPad 2 m ++ "-" ++ natStrPad 2 dd).data = _
    simp [String.data_append]
  rw [runFmt, hdata]
  simp only [runFmt.go]
  rw [parseY_pad y hylt, Option.some_bind, parseLit_cons, Option.some_bind,
    parseM_pad m hm1 hm2, Option.some_bind, parseLit_cons, Option.some_bind,
    parseD_pad dd hd1 hdlt, Option.some_bind]
  rw [if_pos rfl, if_pos hv]

theorem tryFormats_iso (d : PyDate) (hv : d.valid = true) :
    tryFormats (isoDate d) = some d := by
  unfold tryFormats dateFormats
  simp only [List.map_cons, List.foldr_cons]
  rw [runFmt_iso d hv]
  simp [Option.orElse]

/-! ### Branch extraction for `_coerce_value` and re-coercion helpers -/

theorem coerce_stripEmpty (g : String → Option PyDate) (k v : String)
    (h : pyStrip v = "") : coerceValue g k (some v) = (none, none) := by
  simp [coerceValue, h]

theorem refix_empty (g : String → Option PyDate) (k : String) : Refix g k "" := by
  unfold Refix
  rw [coerce_stripEmpty g k "" rfl]
  rfl

theorem coerce_email_eq (g : String → Option PyDate) (v : String) :
    coerceValue g "email" (some v) =
      if pyStrip v = "" then (none, none)
      else (some (pyLower (pyStrip v)), none) := by
  by_cases h : pyStrip v = "" <;> simp [coerceValue, h]

theorem coerce_phone_eq (g : String → Option PyDate) (v : String) :
    coerceValue g "phone" (some v) =
      if pyStrip v = "" then (none, none)
      else (some (keepChars isDigitC (pyStrip v)), none) := by
  by_cases h : pyStrip v = "" <;> simp [coerceValue, h]

theorem coerce_currency_eq (g : String → Option PyDate) (v : String) :
    coerceValue g "currency" (some v) =
      if pyStrip v = "" then (none, none)
      else if pyUpper (keepChars isAsciiAlpha (pyStrip v)) ∈
          ["USD", "EUR", "GBP", "JPY", "CAD", "AUD", "INR"] then
        (some (pyUpper (keepChars isAsciiAlpha (pyStrip v))), none)
      else if 2 ≤ (pyUpper (keepChars isAsciiAlpha (pyStrip v))).length ∧
          (pyUpper (keepChars isAsciiAlpha (pyStrip v))).length ≤ 4 then
        (some (pyUpper (keepChars isAsciiAlpha (pyStrip v))), none)
      else (none, some ("bad_currency:" ++ pyStrip v)) := by
  by_cases h : pyStrip v = "" <;> simp [coerceValue, h]

theorem coerce_occurred_eq (g : String → Option PyDate) (v : String) :
    coerceValue g "occurred_at" (some v) =
      if pyStrip v = "" then (none, none)
      else
        match tryFormats (pyStrip v) with
        | some d => (some (isoDate d), none)
        | none =>
          match g (pyStrip v) with
          | some d => (some (isoDate d), none)
          | none => (none, some ("unrecognized_date:" ++ pyStrip v)) := by
  by_cases h : pyStrip v = "" <;> simp [coerceValue, h]

theorem coerce_trimlike_eq (g : String → Option PyDate) (k v : String)
    (h1 : k ≠ "email") (h2 : k ≠ "phone") (h3 : ¬(k = "amount" ∨ k = "price"))
    (h5 : k ≠ "occurred_at") (h6 : k ≠ "currency") :
    coerceValue g k (some v) =
      if pyStrip v = "" then (none, none) else (some (pyStrip v), none) := by
  by_cases h : pyStrip v = ""
  · rw [if_pos h]
    simp [coerceValue, h]
  · rw [if_neg h]
    simp only [coerceValue]
    rw [if_neg h, if_neg h1, if_neg h2, if_neg h3, if_neg h5, if_neg h6]
    by_cases ho : k = "id" ∨ k = "customer_id" ∨ k = "sku"
    · rw [if_pos ho]
    · rw [if_neg ho]
      by_cases hnc : k = "name" ∨ k = "category"
      · rw [if_pos hnc, pyStrip_idem]
      · rw [if_neg hnc]

theorem pyUpper_idem (s : String) : pyUpper (pyUpper s) = pyUpper s := by
  unfold pyUpper
  simp only
  rw [List.map_map,
    show (upperChar ∘ upperChar) = upperChar from funext fun c => upperChar_idem c]

theorem keepChars_eq_self (p : Char → Bool) (s : String)
    (h : ∀ c ∈ s.data, p c = true) : keepChars p s = s := by
  unfold keepChars
  rw [List.filter_eq_self.mpr h]

theorem keepChars_mem (p : Char → Bool) (s : String) :
    ∀ c ∈ (keepChars p s).data, p c = true := by
  intro c hc
  exact (List.mem_filter.mp hc).2

theorem isoDate_data (d : PyDate) :
    (isoDate d).data =
      (natStrPad 4 d.year).data ++
        ('-' :: ((natStrPad 2 d.month).data ++ ('-' :: (natStrPad 2 d.day).data))) := by
  show (natStrPad 4 d.year ++ "-" ++ natStrPad 2 d.month ++ "-" ++ natStrPad 2 d.day).data = _
  simp [String.data_append]

theorem isoDate_chars (d : PyDate) : ∀ c ∈ (isoDate d).data, isWs c = false := by
  intro c hc
  rw [isoDate_data] at hc
  rcases List.mem_append.mp hc with h | h
  · exact isWs_false_of_digit c (natStrPad_digits 4 d.year c h)
  · rcases List.mem_cons.mp h with h | h
    · rw [h]; decide
    · rcases List.mem_append.mp h with h | h
      · exact isWs_false_of_digit c (natStrPad_digits 2 d.month c h)
      · rcases List.mem_cons.mp h with h | h
        · rw [h]; decide
        · exact isWs_false_of_digit c (natStrPad_digits 2 d.day c h)

/-! ### Every field class of the canonical schemas re-coerces to itself -/

theorem fieldGood_trimlike (k : String)
    (h1 : k ≠ "email") (h2 : k ≠ "phone") (h3 : ¬(k = "amount" ∨ k = "price"))
    (h5 : k ≠ "occurred_at") (h6 : k ≠ "currency") : FieldGood k := by
  intro g _ c himg
  by_cases hc0 : c = ""
  · rw [hc0]; exact refix_empty g k
  have hcstrip : pyStrip c = c := by
    rcases himg with ⟨v, hv⟩ | ⟨_, q, hq⟩
    · rw [coerce_trimlike_eq g k v h1 h2 h3 h5 h6] at hv
      by_cases hvv : pyStrip v = ""
      · rw [if_pos hvv] at hv; exact absurd hv (by simp)
      · rw [if_neg hvv] at hv
        have heq : pyStrip v = c := Option.some.inj hv
        rw [← heq, pyStrip_idem]
    · rw [hq]
      exact pyStrip_eq_self _ fun ch hch =>
        isWs_false_of_num ch (formatFixed_chars 6 _ ch hch)
  unfold Refix
  rw [coerce_trimlike_eq g k c h1 h2 h3 h5 h6,
    if_neg (by rw [hcstrip]; exact hc0), hcstrip]
  rfl

theorem fieldGood_email : FieldGood "email" := by
  intro g _ c himg
  by_cases hc0 : c = ""
  · rw [hc0]; exact refix_empty g _
  rcases himg with ⟨v, hv⟩ | ⟨hk, _⟩
  swap
  · rcases hk with hk | hk <;> exact absurd hk (by decide)
  rw [coerce_email_eq] at hv
  by_cases hvv : pyStrip v = ""
  · rw [if_pos hvv] at hv; exact absurd hv (by simp)
  rw [if_neg hvv] at hv
  have heq : pyLower (pyStrip v) = c := Option.some.inj hv
  have hcstrip : pyStrip c = c := by rw [← heq, pyStrip_pyLower, pyStrip_idem]
  unfold Refix
  rw [coerce_email_eq, if_neg (by rw [hcstrip]; exact hc0), hcstrip]
  show pyLower c = c
  rw [← heq, pyLower_idem]

theorem fieldGood_phone : FieldGood "phone" := by
  intro g _ c himg
  by_cases hc0 : c = ""
  · rw [hc0]; exact refix_empty g _
  rcases himg with ⟨v, hv⟩ | ⟨hk, _⟩
  swap
  · rcases hk with hk | hk <;> exact absurd hk (by decide)
  rw [coerce_phone_eq] at hv
  by_cases hvv : pyStrip v = ""
  · rw [if_pos hvv] at hv; exact absurd hv (by simp)
  rw [if_neg hvv] at hv
  have heq : keepChars isDigitC (pyStrip v) = c := Option.some.inj hv
  have hdig : ∀ ch ∈ c.data, isDigitC ch = true := by
    rw [← heq]; exact keepChars_mem _ _
  have hcstrip : pyStrip c = c :=
    pyStrip_eq_self _ fun ch hch => isWs_false_of_digit ch (hdig ch hch)
  unfold Refix
  rw [coerce_phone_eq, if_neg (by rw [hcstrip]; exact hc0), hcstrip]
  show keepChars isDigitC c = c
  exact keepChars_eq_self _ _ hdig

theorem fieldGood_amountlike (k : String) (hk : k = "amount" ∨ k = "price") :
    FieldGood k := by
  intro g _ c himg
  by_cases hc0 : c = ""
  · rw [hc0]; exact refix_empty g _
  rcases himg with ⟨v, hv⟩ | ⟨hkk, _⟩
  swap
  · rcases hk with hk | hk <;> rcases hkk with hkk | hkk <;> subst hk <;>
      exact absurd hkk (by decide)
  by_cases hvv : pyStrip v = ""
  · rw [coerce_stripEmpty g k v hvv] at hv; exact absurd hv (by simp)
  rw [decimal_coercion_amended g k v hk hvv] at hv
  cases hpf : pyFloat (keepChars isNumC (pyStrip v)) with
  | none => rw [hpf] at hv; exact absurd hv (by simp)
  | some f =>
    rw [hpf] at hv
    have heq : formatTwo f = c := Option.some.inj hv
    have hnum : ∀ ch ∈ c.data, isNumC ch = true := by
      rw [← heq]; exact formatFixed_chars 2 f
    have hcstrip : pyStrip c = c :=
      pyStrip_eq_self _ fun ch hch => isWs_false_of_num ch (hnum ch hch)
    unfold Refix
    rw [decimal_coercion_amended g k c hk (by rw [hcstrip]; exact hc0),
      hcstrip, keepChars_eq_self _ _ hnum, ← heq,
      show formatTwo f = formatFixed 2 f from rfl,
      pyFloat_formatFixed 2 (by omega) f]
    exact formatFixed_refix 2 f

theorem fieldGood_currency : FieldGood "currency" := by
  intro g _ c himg
  by_cases hc0 : c = ""
  · rw [hc0]; exact refix_empty g _
  rcases himg with ⟨v, hv⟩ | ⟨hk, _⟩
  swap
  · rcases hk with hk | hk <;> exact absurd hk (by decide)
  rw [coerce_currency_eq] at hv
  by_cases hvv : pyStrip v = ""
  · rw [if_pos hvv] at hv; exact absurd hv (by simp)
  rw [if_neg hvv] at hv
  have hmain : pyUpper (keepChars isAsciiAlpha (pyStrip v)) = c ∧
      (c ∈ ["USD", "EUR", "GBP", "JPY", "CAD", "AUD", "INR"] ∨
        (2 ≤ c.length ∧ c.length ≤ 4)) := by
    by_cases hm : pyUpper (keepChars isAsciiAlpha (pyStrip v)) ∈
        ["USD", "EUR", "GBP", "JPY", "CAD", "AUD", "INR"]
    · rw [if_pos hm] at hv
      have heq := Option.some.inj hv
      exact ⟨heq, Or.inl (heq ▸ hm)⟩
    · rw [if_neg hm] at hv
      by_cases hl : 2 ≤ (pyUpper (keepChars isAsciiAlpha (pyStrip v))).length ∧
          (pyUpper (keepChars isAsciiAlpha (pyStrip v))).length ≤ 4
      · rw [if_pos hl] at hv
        have heq := Option.some.inj hv
        exact ⟨heq, Or.inr (heq ▸ hl)⟩
      · rw [if_neg hl] at hv; exact absurd hv (by simp)
  obtain ⟨heq, hacc⟩ := hmain
  have halpha : ∀ ch ∈ c.data, isAsciiAlpha ch = true := by
    rw [← heq]
    intro ch hch
    rcases List.mem_map.mp hch with ⟨x, hx, hux⟩
    rw [← hux, isAsciiAlpha_upperChar]
    exact (List.mem_filter.mp hx).2
  have hcstrip : pyStrip c = c :=
    pyStrip_eq_self _ fun ch hch => isWs_false_of_alpha ch (halpha ch hch)
  have hkeep : keepChars isAsciiAlpha c = c := keepChars_eq_self _ _ halpha
  have hupper : pyUpper c = c := by rw [← heq, pyUpper_idem]
  unfold Refix
  rw [coerce_currency_eq, if_neg (by rw [hcstrip]; exact hc0), hcstrip, hkeep, hupper]
  by_cases hmem : c ∈ ["USD", "EUR", "GBP", "JPY", "CAD", "AUD", "INR"]
  · rw [if_pos hmem]; rfl
  · rw [if_neg hmem]
    rcases hacc with hacc | hacc
    · exact absurd hacc hmem
    · rw [if_pos hacc]; rfl

theorem fieldGood_occurred_at : FieldGood "occurred_at" := by
  intro g hg c himg
  by_cases hc0 : c = ""
  · rw [hc0]; exact refix_empty g _
  rcases himg with ⟨v, hv⟩ | ⟨hk, _⟩
  swap
  · rcases hk with hk | hk <;> exact absurd hk (by decide)
  rw [coerce_occurred_eq] at hv
  by_cases hvv : pyStrip v = ""
  · rw [if_pos hvv] at hv; exact absurd hv (by simp)
  rw [if_neg hvv] at hv
  have hmain : ∃ d : PyDate, d.valid = true ∧ isoDate d = c := by
    cases ht : tryFormats (pyStrip v) with
    | some d =>
      rw [ht] at hv
      exact ⟨d, tryFormats_valid _ d ht, Option.some.inj hv⟩
    | none =>
      rw [ht] at hv
      cases hgv : g (pyStrip v) with
      | some d =>
        rw [hgv] at hv
        exact ⟨d, hg _ d hgv, Option.some.inj hv⟩
      | none => rw [hgv] at hv; exact absurd hv (by simp)
  obtain ⟨d, hvd, heq⟩ := hmain
  have hcstrip : pyStrip c = c := by
    rw [← heq]; exact pyStrip_eq_self _ (isoDate_chars d)
  unfold Refix
  rw [coerce_occurred_eq, if_neg (by rw [hcstrip]; exact hc0), hcstrip, ← heq,
    tryFormats_iso d hvd]
  rfl

/-! ### First-run output cells lie in the coercion image of their field -/

theorem cellInv_dset (g : String → Option PyDate) (out : OutRow) (target : String)
    (val : Option String) (hval : CellInv g target (some val))
    (hinv : ∀ k, CellInv g k (dget out k)) :
    ∀ k, CellInv g k (dget (dset out target val) k) := by
  intro k
  by_cases hk : k = target
  · subst hk
    rw [dget_dset_self]
    exact hval
  · rw [dget_dset_ne _ _ _ _ hk]
    exact hinv k

theorem unitAdjust_cases (target rawHeader val : String) (out af : OutRow) :
    (unitAdjust target rawHeader val out af).1 = out ∨
    (unitAdjust target rawHeader val out af).1 = dset out target none ∨
    ∃ q : ℚ, (unitAdjust target rawHeader val out af).1 =
      dset out target (some (formatFixed 6 (qToPyFloat q))) := by
  unfold unitAdjust
  cases extractHeaderUnit rawHeader with
  | none => exact Or.inl rfl
  | some u =>
    cases pyFloat (keepChars isNumC val) with
    | none => exact Or.inl rfl
    | some fl =>
      cases hconv : (if target = "weight_kg" then (normalize_mass fl.toQ u).1
          else (normalize_length fl.toQ u).1) with
      | none => exact Or.inr (Or.inl (by simp [hconv]))
      | some q => exact Or.inr (Or.inr ⟨q, by simp [hconv]⟩)

theorem go_inv (g : String → Option PyDate) (schema rawHeaders : List String) :
    ∀ (vals : List String) (i : ℕ) (out : OutRow) (bf : List (String × String))
      (af : OutRow),
      (∀ k, CellInv g k (dget out k)) →
      ∀ k, CellInv g k (dget (processRow.go g schema rawHeaders i vals out bf af).1 k) := by
  intro vals
  induction vals with
  | nil => intro i out bf af hinv k; exact hinv k
  | cons v rest ih =>
    intro i out bf af hinv k
    cases hm : headerMap schema rawHeaders i with
    | none =>
      have hgo : processRow.go g schema rawHeaders i (v :: rest) out bf af =
          processRow.go g schema rawHeaders (i + 1) rest out bf af := by
        simp only [processRow.go, hm]
      rw [hgo]
      exact ih _ _ _ _ hinv k
    | some target =>
      have hout' : ∀ k, CellInv g k
          (dget (dset out target (coerceValue g target (some v)).1) k) := by
        refine cellInv_dset g out target _ ?_ hinv
        cases hc : (coerceValue g target (some v)).1 with
        | none => trivial
        | some c => exact Or.inl ⟨v, hc⟩
      by_cases hu : target = "weight_kg" ∨ target = "length_m"
      · have hgo : processRow.go g schema rawHeaders i (v :: rest) out bf af =
            processRow.go g schema rawHeaders (i + 1) rest
              (unitAdjust target (rawHeaders.getD i "") v
                (dset out target (coerceValue g target (some v)).1)
                (dset af target (coerceValue g target (some v)).1)).1
              (dset bf target v)
              (unitAdjust target (rawHeaders.getD i "") v
                (dset out target (coerceValue g target (some v)).1)
                (dset af target (coerceValue g target (some v)).1)).2 := by
          simp only [processRow.go, hm, if_pos hu]
        rw [hgo]
        refine ih _ _ _ _ ?_ k
        rcases unitAdjust_cases target (rawHeaders.getD i "") v
            (dset out target (coerceValue g target (some v)).1)
            (dset af target (coerceValue g target (some v)).1) with
          hcase | hcase | ⟨q, hcase⟩
        · rw [hcase]; exact hout'
        · rw [hcase]
          exact cellInv_dset g _ target _ trivial hout'
        · rw [hcase]
          exact cellInv_dset g _ target _ (Or.inr ⟨hu, q, rfl⟩) hout'
      · have hgo : processRow.go g schema rawHeaders i (v :: rest) out bf af =
            processRow.go g schema rawHeaders (i + 1) rest
              (dset out target (coerceValue g target (some v)).1)
              (dset bf target v)
              (dset af target (coerceValue g target (some v)).1) := by
          simp only [processRow.go, hm, if_neg hu]
        rw [hgo]
        exact ih _ _ _ _ hout' k

theorem init_inv (g : String → Option PyDate) (schema : List String) :
    ∀ k, CellInv g k (dget (schema.map fun k => (k, (none : Option String))) k) := by
  intro k
  induction schema with
  | nil => trivial
  | cons s rest ih =>
    simp only [List.map_cons, dget]
    by_cases hk : k = s
    · rw [if_pos hk]; trivial
    · rw [if_neg hk]; exact ih

theorem processRow_inv (g : String → Option PyDate) (schema rawHeaders row : List String) :
    ∀ k, CellInv g k (dget (processRow g schema rawHeaders row).1 k) :=
  go_inv g schema rawHeaders row 0 _ [] [] (init_inv g schema)

theorem refix_of_cellInv (g : String → Option PyDate) (hg : GoodParser g)
    (k : String) (hk : FieldGood k) (o : Option (Option String))
    (hinv : CellInv g k o) : Refix g k (rendCell o) := by
  cases o with
  | none => exact refix_empty g k
  | some oo =>
    cases oo with
    | none => exact refix_empty g k
    | some c => exact hk g hg c hinv

/-! ### The second run is the identity on rendered rows -/

theorem secondRun_contacts (g : String → Option PyDate) (c1 c2 c3 c4 c5 : String)
    (h1 : rendOpt (coerceValue g "email" (some c1)).1 = c1)
    (h2 : rendOpt (coerceValue g "phone" (some c2)).1 = c2)
    (h3 : rendOpt (coerceValue g "first_name" (some c3)).1 = c3)
    (h4 : rendOpt (coerceValue g "last_name" (some c4)).1 = c4)
    (h5 : rendOpt (coerceValue g "company" (some c5)).1 = c5) :
    renderRow contactsSchema
      (processRow g contactsSchema contactsSchema [c1, c2, c3, c4, c5]).1 =
      [c1, c2, c3, c4, c5] := by
  have e : renderRow contactsSchema
      (processRow g contactsSchema contactsSchema [c1, c2, c3, c4, c5]).1 =
      [rendOpt (coerceValue g "email" (some c1)).1,
       rendOpt (coerceValue g "phone" (some c2)).1,
       rendOpt (coerceValue g "first_name" (some c3)).1,
       rendOpt (coerceValue g "last_name" (some c4)).1,
       rendOpt (coerceValue g "company" (some c5)).1] := rfl
  rw [e, h1, h2, h3, h4, h5]

theorem secondRun_transactions (g : String → Option PyDate) (c1 c2 c3 c4 c5 : String)
    (h1 : rendOpt (coerceValue g "id" (some c1)).1 = c1)
    (h2 : rendOpt (coerceValue g "amount" (some c2)).1 = c2)
    (h3 : rendOpt (coerceValue g "currency" (some c3)).1 = c3)
    (h4 : rendOpt (coerceValue g "occurred_at" (some c4)).1 = c4)
    (h5 : rendOpt (coerceValue g "customer_id" (some c5)).1 = c5) :
    renderRow transactionsSchema
      (processRow g transactionsSchema transactionsSchema [c1, c2, c3, c4, c5]).1 =
      [c1, c2, c3, c4, c5] := by
  have e : renderRow transactionsSchema
      (processRow g transactionsSchema transactionsSchema [c1, c2, c3, c4, c5]).1 =
      [rendOpt (coerceValue g "id" (some c1)).1,
       rendOpt (coerceValue g "amount" (some c2)).1,
       rendOpt (coerceValue g "currency" (some c3)).1,
       rendOpt (coerceValue g "occurred_at" (some c4)).1,
       rendOpt (coerceValue g "customer_id" (some c5)).1] := rfl
  rw [e, h1, h2, h3, h4, h5]

theorem secondRun_products (g : String → Option PyDate) (c1 c2 c3 c4 c5 c6 c7 : String)
    (h1 : rendOpt (coerceValue g "sku" (some c1)).1 = c1)
    (h2 : rendOpt (coerceValue g "name" (some c2)).1 = c2)
    (h3 : rendOpt (coerceValue g "price" (some c3)).1 = c3)
    (h4 : rendOpt (coerceValue g "currency" (some c4)).1 = c4)
    (h5 : rendOpt (coerceValue g "category" (some c5)).1 = c5)
    (h6 : rendOpt (coerceValue g "weight_kg" (some c6)).1 = c6)
    (h7 : rendOpt (coerceValue g "length_m" (some c7)).1 = c7) :
    renderRow productsSchema
      (processRow g productsSchema productsSchema [c1, c2, c3, c4, c5, c6, c7]).1 =
      [c1, c2, c3, c4, c5, c6, c7] := by
  have e : renderRow productsSchema
      (processRow g productsSchema productsSchema [c1, c2, c3, c4, c5, c6, c7]).1 =
      [rendOpt (coerceValue g "sku" (some c1)).1,
       rendOpt (coerceValue g "name" (some c2)).1,
       rendOpt (coerceValue g "price" (some c3)).1,
       rendOpt (coerceValue g "currency" (some c4)).1,
       rendOpt (coerceValue g "category" (some c5)).1,
       rendOpt (coerceValue g "weight_kg" (some c6)).1,
       rendOpt (coerceValue g "length_m" (some c7)).1] := rfl
  rw [e, h1, h2, h3, h4, h5, h6, h7]

theorem rowFix_contacts (g : String → Option PyDate) (hg : GoodParser g)
    (out1 : OutRow) (hinv : ∀ k, CellInv g k (dget out1 k)) :
    renderRow contactsSchema
      (processRow g contactsSchema contactsSchema (renderRow contactsSchema out1)).1 =
      renderRow contactsSchema out1 := by
  have hr : renderRow contactsSchema out1 =
      [rendCell (dget out1 "email"), rendCell (dget out1 "phone"),
       rendCell (dget out1 "first_name"), rendCell (dget out1 "last_name"),
       rendCell (dget out1 "company")] := rfl
  rw [hr]
  exact secondRun_contacts g _ _ _ _ _
    (refix_of_cellInv g hg "email" fieldGood_email _ (hinv "email"))
    (refix_of_cellInv g hg "phone" fieldGood_phone _ (hinv "phone"))
    (refix_of_cellInv g hg "first_name"
      (fieldGood_trimlike _ (by decide) (by decide) (by decide) (by decide) (by decide))
      _ (hinv "first_name"))
    (refix_of_cellInv g hg "last_name"
      (fieldGood_trimlike _ (by decide) (by decide) (by decide) (by decide) (by decide))
      _ (hinv "last_name"))
    (refix_of_cellInv g hg "company"
      (fieldGood_trimlike _ (by decide) (by decide) (by decide) (by decide) (by decide))
      _ (hinv "company"))

theorem rowFix_transactions (g : String → Option PyDate) (hg : GoodParser g)
    (out1 : OutRow) (hinv : ∀ k, CellInv g k (dget out1 k)) :
    renderRow transactionsSchema
      (processRow g transactionsSchema transactionsSchema
        (renderRow transactionsSchema out1)).1 =
      renderRow transactionsSchema out1 := by
  have hr : renderRow transactionsSchema out1 =
      [rendCell (dget out1 "id"), rendCell (dget out1 "amount"),
       rendCell (dget out1 "currency"), rendCell (dget out1 "occurred_at"),
       rendCell (dget out1 "customer_id")] := rfl
  rw [hr]
  exact secondRun_transactions g _ _ _ _ _
    (refix_of_cellInv g hg "id"
      (fieldGood_trimlike _ (by decide) (by decide) (by decide) (by decide) (by decide))
      _ (hinv "id"))
    (refix_of_cellInv g hg "amount" (fieldGood_amountlike _ (Or.inl rfl)) _ (hinv "amount"))
    (refix_of_cellInv g hg "currency" fieldGood_currency _ (hinv "currency"))
    (refix_of_cellInv g hg "occurred_at" fieldGood_occurred_at _ (hinv "occurred_at"))
    (refix_of_cellInv g hg "customer_id"
      (fieldGood_trimlike _ (by decide) (by decide) (by decide) (by decide) (by decide))
      _ (hinv "customer_id"))

theorem rowFix_products (g : String → Option PyDate) (hg : GoodParser g)
    (out1 : OutRow) (hinv : ∀ k, CellInv g k (dget out1 k)) :
    renderRow productsSchema
      (processRow g productsSchema productsSchema (renderRow productsSchema out1)).1 =
      renderRow productsSchema out1 := by
  have hr : renderRow productsSchema out1 =
      [rendCell (dget out1 "sku"), rendCell (dget out1 "name"),
       rendCell (dget out1 "price"), rendCell (dget out1 "currency"),
       rendCell (dget out1 "category"), rendCell (dget out1 "weight_kg"),
       rendCell (dget out1 "length_m")] := rfl
  rw [hr]
  exact secondRun_products g _ _ _ _ _ _ _
    (refix_of_cellInv g hg "sku"
      (fieldGood_trimlike _ (by decide) (by decide) (by decide) (by decide) (by decide))
      _ (hinv "sku"))
    (refix_of_cellInv g hg "name"
      (fieldGood_trimlike _ (by decide) (by decide) (by decide) (by decide) (by decide))
      _ (hinv "name"))
    (refix_of_cellInv g hg "price" (fieldGood_amountlike _ (Or.inr rfl)) _ (hinv "price"))
    (refix_of_cellInv g hg "currency" fieldGood_currency _ (hinv "currency"))
    (refix_of_cellInv g hg "category"
      (fieldGood_trimlike _ (by decide) (by decide) (by decide) (by decide) (by decide))
      _ (hinv "category"))
    (refix_of_cellInv g hg "weight_kg"
      (fieldGood_trimlike _ (by decide) (by decide) (by decide) (by decide) (by decide))
      _ (hinv "weight_kg"))
    (refix_of_cellInv g hg "length_m"
      (fieldGood_trimlike _ (by decide) (by decide) (by decide) (by decide) (by decide))
      _ (hinv "length_m"))

/-! ### Idempotence of the engine on its rendered output -/

theorem repair_idem_aux (g : String → Option PyDate) (s : List String)
    (hrow : ∀ out1 : OutRow, (∀ k, CellInv g k (dget out1 k)) →
      renderRow s (processRow g s s (renderRow s out1)).1 = renderRow s out1)
    (t : List (List String)) :
    renderTable s (repairRows g s (renderTable s (repairRows g s t))) =
      renderTable s (repairRows g s t) := by
  cases t with
  | nil => rfl
  | cons rawHeaders dataRows =>
    have h1 : ∀ (hs : List String) (rows : List (List String)),
        renderTable s (repairRows g s (hs :: rows)) =
          s :: rows.map fun r => renderRow s (processRow g s hs r).1 := by
      intro hs rows
      simp only [repairRows, renderTable, List.map_map]
      rfl
    rw [h1, h1, List.map_map]
    refine congrArg (s :: ·) (List.map_congr_left ?_)
    intro r _
    exact hrow (processRow g s rawHeaders r).1 (processRow_inv g s rawHeaders r)

/-- C7: for each canonical schema and every input batch, re-running the
    repair engine on its own rendered output yields the same rendered
    output: canonical headers re-resolve to themselves and every coerced
    value re-coerces to itself. -/
theorem repair_idempotent (g : String → Option PyDate) (hg : GoodParser g)
    (s : List String)
    (hs : s = contactsSchema ∨ s = transactionsSchema ∨ s = productsSchema)
    (t : List (List String)) :
    renderTable s (repairRows g s (renderTable s (repairRows g s t))) =
      renderTable s (repairRows g s t) := by
  rcases hs with hs | hs | hs <;> subst hs
  · exact repair_idem_aux g _ (fun o hi => rowFix_contacts g hg o hi) t
  · exact repair_idem_aux g _ (fun o hi => rowFix_transactions g hg o hi) t
  · exact repair_idem_aux g _ (fun o hi => rowFix_products g hg o hi) t

/-- Witness for C7: idempotence at the S1-style contacts batch. -/
theorem repair_idempotent_witness :
    renderTable contactsSchema (repairRows noParse contactsSchema
      (renderTable contactsSchema (repairRows noParse contactsSchema
        [["Email", "E-Mail", "Phone", "First Name", "Last Name", "Company"],
         ["A@B.COM", "x@y.com", "(555) 123-4567", "Jane", "Doe", "Acme"]]))) =
      renderTable contactsSchema (repairRows noParse contactsSchema
        [["Email", "E-Mail", "Phone", "First Name", "Last Name", "Company"],
         ["A@B.COM", "x@y.com", "(555) 123-4567", "Jane", "Doe", "Acme"]]) :=
  repair_idempotent noParse (fun _ d h => Option.noConfusion h) contactsSchema
    (Or.inl rfl) _

end IngressKit
